import Mathlib

/-!
# bdfile: a bulk file downloader (`main.go`)

A shallow embedding of `main.go`.

* Go `string`s are Lean `String`s.  The only bytes the program inspects are
  ASCII (`/`, `,`, `.` and the extensions of the table), so splitting and
  suffix tests on characters agree with Go's byte-wise ones.
* The operating system and the network are a `World` of oracles: each call of
  `downloadFile` is given one, which says how `os.MkdirAll`, `httpClient.Get`,
  `os.Create` and `io.Copy` answer.
* The process is a record `Proc`: the two output streams, the files on disk,
  the counts of open response bodies and open files, the exit status, and
  ghost logs of the calls of `downloadFile`, `check` and `os.Create`.
* `main` is a transition system: the dispatcher (the `for` loop, `wg.Wait()`
  and the final print) and the goroutines it starts take steps one at a time,
  in any order a scheduler may choose.  A call of `downloadFile` is one step up
  to its return or to the `os.Exit(1)` of `check`; that `os.Exit(1)` is a step
  of its own, and until it runs the rest of the program goes on.
-/

namespace Bdfile

/-! ## The standard-library functions the program calls -/

namespace unicode

/-- Go's `unicode.IsSpace`: the Latin-1 spaces and the `White_Space` property. -/
def IsSpace (r : Char) : Bool :=
  let n := r.toNat
  (9 ≤ n && n ≤ 13) || n == 0x20 || n == 0x85 || n == 0xA0 || n == 0x1680 ||
  (0x2000 ≤ n && n ≤ 0x200a) || n == 0x2028 || n == 0x2029 || n == 0x202f ||
  n == 0x205f || n == 0x3000

end unicode

namespace strings

/-- Go's `strings.TrimSpace`: leading and trailing white space removed. -/
def TrimSpace (s : String) : String :=
  ⟨((s.data.dropWhile unicode.IsSpace).reverse.dropWhile unicode.IsSpace).reverse⟩

/-- The pieces of `s` between the occurrences of `sep`; `cur` is the piece
being read, reversed. -/
def splitAux (sep : Char) : List Char → List Char → List String
  | [], cur => [⟨cur.reverse⟩]
  | c :: cs, cur =>
    if c = sep then ⟨cur.reverse⟩ :: splitAux sep cs [] else splitAux sep cs (c :: cur)

/-- Go's `strings.Split(s, sep)` for a one-character separator: the substrings
between the separators, one more than there are separators. -/
def Split (s : String) (sep : Char) : List String :=
  splitAux sep s.data []

/-- Go's `strings.HasSuffix`:
`len(s) >= len(suffix) && s[len(s)-len(suffix):] == suffix`. -/
def HasSuffix (s suffix : String) : Bool :=
  decide (suffix.data.length ≤ s.data.length) &&
    decide (s.data.drop (s.data.length - suffix.data.length) = suffix.data)

end strings

namespace filepath

/-- Go's `filepath.Base` with `/` as the separator: `"."` for the empty path;
otherwise the trailing slashes are dropped and what follows the last slash is
kept, `"/"` when nothing is left. -/
def Base (path : String) : String :=
  if path.data = [] then "."
  else
    let p := (path.data.reverse.dropWhile (fun c => c == '/')).reverse
    let p := (p.reverse.takeWhile (fun c => c != '/')).reverse
    if p = [] then "/" else ⟨p⟩

end filepath

/-! ## The table of content types -/

/-- The map `mimeTypeSet`, as its list of entries (Go rejects a map literal
with a repeated key, so the first match is the only one). -/
def mimeTypeSet : List (String × String) :=
  [ ("image/jpeg", "jpg"),
    ("image/jp2", "jp2"),
    ("image/png", "png"),
    ("image/gif", "gif"),
    ("image/webp", "webp"),
    ("image/x-canon-cr2", "cr2"),
    ("image/tiff", "tif"),
    ("image/bmp", "bmp"),
    ("image/vnd.ms-photo", "jxr"),
    ("image/vnd.adobe.photoshop", "psd"),
    ("image/vnd.microsoft.icon", "ico"),
    ("image/heif", "heif"),
    ("image/vnd.dwg", "dwg"),
    ("application/wasm", "wasm"),
    ("application/vnd.android.dex", "dex"),
    ("application/vnd.android.dey", "dey"),
    ("application/epub+zip", "epub"),
    ("application/zip", "zip"),
    ("application/x-tar", "tar"),
    ("application/vnd.rar", "rar"),
    ("application/gzip", "gz"),
    ("application/x-bzip2", "bz2"),
    ("application/x-7z-compressed", "7z"),
    ("application/x-xz", "xz"),
    ("application/zstd", "zst"),
    ("application/pdf", "pdf"),
    ("application/x-shockwave-flash", "swf"),
    ("application/rtf", "rtf"),
    ("application/octet-stream", "eot"),
    ("application/postscript", "ps"),
    ("application/vnd.sqlite3", "sqlite"),
    ("application/x-nintendo-nes-rom", "nes"),
    ("application/x-google-chrome-extension", "crx"),
    ("application/vnd.ms-cab-compressed", "cab"),
    ("application/vnd.debian.binary-package", "deb"),
    ("application/x-unix-archive", "ar"),
    ("application/x-compress", "Z"),
    ("application/x-lzip", "lz"),
    ("application/x-rpm", "rpm"),
    ("application/x-executable", "elf"),
    ("application/dicom", "dcm"),
    ("application/x-iso9660-image", "iso"),
    ("application/x-mach-binary", "macho"),
    ("application/msword", "doc"),
    ("application/vnd.ms-excel", "xls"),
    ("application/vnd.microsoft.portable-executable", "exe"),
    ("application/vnd.ms-powerpoint", "ppt"),
    ("application/font-sfnt", "ttf"),
    ("application/font-woff", "woff"),
    ("application/vnd.openxmlformats-officedocument.wordprocessingml.document", "docx"),
    ("application/vnd.openxmlformats-officedocument.spreadsheetml.sheet", "xlsx"),
    ("application/vnd.openxmlformats-officedocument.presentationml.presentation", "pptx") ]

/-- The index expression `kind, ok := mimeTypeSet[key]`: `some kind` when the
key is in the map, `none` when `ok` is false. -/
def mimeLookup (key : String) : Option String :=
  mimeTypeSet.lookup key

/-! ## The process and its environment -/

/-- Files on disk: the directories, and the regular files with their
contents.  A file is named by the pair `(dir, name)` that `downloadFile`
hands to `filepath.Join`. -/
structure FS where
  dirs : List String
  files : List ((String × String) × List UInt8)
deriving DecidableEq

/-- An HTTP response: what `resp.Header.Get("Content-Type")` returns (the
empty string when the header is missing) and the bytes of the body. -/
structure Response where
  contentType : String
  body : List UInt8
deriving DecidableEq

/-- How the environment answers one call of `downloadFile`.  An error is the
text of its `Error()`. -/
structure World where
  /-- The error of `os.MkdirAll(path, os.ModePerm)`, if any. -/
  mkdirAll : String → Option String
  /-- The answer to `httpClient.Get(file)`. -/
  get : String → Except String Response
  /-- The error of `os.Create` of `name` in `dir`, if any. -/
  create : String → String → Option String
  /-- The failure of `io.Copy(writer, resp.Body)`, if any: the number of bytes written
  before the error, and the error. -/
  copy : String → Option (Nat × String)

/-- The observable state of the process, with ghost logs of calls. -/
structure Proc where
  stdout : List String
  stderr : List String
  fs : FS
  /-- Response bodies obtained and not yet closed. -/
  openBodies : Nat
  /-- Files opened by `os.Create` and not yet closed. -/
  openFiles : Nat
  /-- Ghost: the `file` argument of each call of `downloadFile`, at entry. -/
  invoked : List String
  /-- Ghost: the `file` argument of each call of `downloadFile` that returned. -/
  returned : List String
  /-- Ghost: the arguments `(file, err.Error())` of each call of `check`. -/
  checks : List (String × String)
  /-- Ghost: the `(path, filename)` of each call of `os.Create`. -/
  creates : List (String × String)
  /-- The exit status, once the process has ended. -/
  exit : Option Nat

/-- A process that has just started, on the disk `fs`. -/
def Proc.start (fs : FS) : Proc :=
  { stdout := [], stderr := [], fs := fs, openBodies := 0, openFiles := 0,
    invoked := [], returned := [], checks := [], creates := [], exit := none }

/-- The line `check` prints: `"%s download err, reason: %s\n"`. -/
def errLine (file err : String) : String :=
  file ++ " download err, reason: " ++ err ++ "\n"

/-- The function `check`: prints the line on standard error and, in strict
mode, ends the process with `os.Exit(1)`. -/
def check (strictMode : Bool) (file err : String) (p : Proc) : Proc :=
  let p := { p with stderr := p.stderr ++ [errLine file err],
                    checks := p.checks ++ [(file, err)] }
  if strictMode then { p with exit := some 1 } else p

/-- The disk after `os.MkdirAll` has succeeded: the directory exists. -/
def FS.mkdir (fs : FS) (path : String) : FS :=
  if path ∈ fs.dirs then fs else { fs with dirs := fs.dirs ++ [path] }

/-- The file `key` now has the contents `data` (created if it was missing). -/
def FS.write (fs : FS) (key : String × String) (data : List UInt8) : FS :=
  { fs with files := (key, data) :: fs.files.filter (fun e => decide (e.1 ≠ key)) }

/-- The body of `downloadFile` after `defer resp.Body.Close()` (lines 154 to
173): the name of the file, `os.Create`, `io.Copy`. -/
def downloadBody (w : World) (strictMode : Bool) (file path : String) (resp : Response)
    (p : Proc) : Proc :=
  let filename := filepath.Base file
  match mimeLookup resp.contentType with
  | none => check strictMode file "not match mime type" p
  | some kind =>
    let filename :=
      if !strings.HasSuffix filename kind then filename ++ "." ++ kind else filename
    let p := { p with creates := p.creates ++ [(path, filename)] }
    match w.create path filename with
    | some err => check strictMode file err p
    | none =>
      let p := { p with openFiles := p.openFiles + 1, fs := p.fs.write (path, filename) [] }
      match w.copy file with
      | some (n, err) =>
        check strictMode file err { p with fs := p.fs.write (path, filename) (resp.body.take n) }
      | none => { p with fs := p.fs.write (path, filename) resp.body }

/-- The deferred `resp.Body.Close()`: it runs when `downloadFile` returns,
which a process ended by `os.Exit` never does. -/
def Proc.closeBody (p : Proc) : Proc :=
  if p.exit.isSome then p else { p with openBodies := p.openBodies - 1 }

/-- The return of `downloadFile`, logged when the process is still alive. -/
def Proc.ret (file : String) (p : Proc) : Proc :=
  if p.exit.isSome then p else { p with returned := p.returned ++ [file] }

/-- The function `downloadFile`. -/
def downloadFile (w : World) (strictMode : Bool) (file path : String) (p : Proc) : Proc :=
  let p := { p with invoked := p.invoked ++ [file] }
  Proc.ret file <|
    match w.mkdirAll path with
    | some err => check strictMode file err p
    | none =>
      let p := { p with fs := p.fs.mkdir path }
      match w.get file with
      | .error err => check strictMode file err p
      | .ok resp =>
        let p := { p with openBodies := p.openBodies + 1 }
        Proc.closeBody (downloadBody w strictMode file path resp p)

/-! ## The function `main` as a transition system -/

/-- The package-level variables set by `flag.Parse()`. -/
structure Flags where
  outDir : String
  input : String
  thread : Int
  strictMode : Bool
  helpFlag : Bool

/-- The text `helpTemplate`. -/
def helpTemplate : String :=
  "a small tool for download some file, like image excel, html and everything...\n" ++
  "-i string\n\tinput string, like: a,b,a...\n" ++
  "-o string\n\toutput dir\n" ++
  "-t int\n\ttread number (default 10)\n" ++
  "-s bool\n\tin case of strict mode, an error will terminate the operation\n" ++
  "example:\n\tbdfile -t 10 -o ./output_dir -i \x27http://baidu.com/1.png,http://baidu.com/2.png\x27"

/-- Where the dispatcher (the goroutine running `main`) stands. -/
inductive Pc where
  /-- At `queue <- struct{}{}` (line 124), for the first pending file. -/
  | send
  /-- At `wg.Add(1)` (line 125). -/
  | add
  /-- At the `go` statement (line 127). -/
  | go
  /-- At `wg.Wait()` (line 137). -/
  | wait
  /-- At the final `fmt.Fprintln` (line 138). -/
  | print
  /-- At the end of `main`. -/
  | ret
deriving DecidableEq

/-- The state of the program.  A goroutine started at line 127 is first in
`running` (before its call of `downloadFile`), then counted in `recvN` (at
`<-queue`, line 129), then in `doneN` (at `wg.Done()`, line 130), then gone.
In strict mode a goroutine whose call of `check` has printed its line stands
at `os.Exit(1)` (line 179) and is in `exiting`: the other goroutines and the
dispatcher go on until one such `os.Exit(1)` takes effect. -/
structure State where
  /-- The capacity of `queue`. -/
  cap : Nat
  pc : Pc
  /-- The elements of `fileList` the loop has not finished with. -/
  pending : List String
  /-- The number of tokens in `queue`. -/
  queue : Nat
  /-- The counter of the wait group. -/
  wg : Int
  running : List String
  recvN : Nat
  doneN : Nat
  proc : Proc
  /-- The goroutines standing at `os.Exit(1)` in `check`, by their `file`, in
  the order of their calls of `check`. -/
  exiting : List String
  /-- Ghost: the `file` of the goroutine whose `os.Exit(1)` ended the process. -/
  exitedBy : Option String

/-- The head of the `for` loop: one more iteration, or `wg.Wait()`. -/
def loopPc : List String → Pc
  | [] => .wait
  | _ :: _ => .send

/-- The tokens the dispatcher has put in `queue` for a goroutine it has not
started yet: one between the send and the `go` statement. -/
def Pc.hold : Pc → Nat
  | .add => 1
  | .go => 1
  | _ => 0

/-- The units the dispatcher has added to the wait group for a goroutine it has
not started yet: one between `wg.Add(1)` and the `go` statement. -/
def Pc.added : Pc → Nat
  | .go => 1
  | _ => 0

/-- A state in which `main` is about to return, or has ended. -/
def State.idle (p : Proc) : State :=
  { cap := 0, pc := .ret, pending := [], queue := 0, wg := 0, running := [],
    recvN := 0, doneN := 0, proc := p, exiting := [], exitedBy := none }

/-- Lines 97 to 121 of `main`: the flags are read, the help text or the
complaint about the parameters is printed, the list is split, the channel and
the wait group are made.  `make` panics on a negative capacity, and a panic
ends the process with status 2 (the text of the panic is not recorded). -/
def start (f : Flags) (fs : FS) : State :=
  let p := Proc.start fs
  if f.helpFlag then State.idle { p with stdout := [helpTemplate ++ "\n"] }
  else if strings.TrimSpace f.input = "" || strings.TrimSpace f.outDir = "" then
    State.idle { p with stderr := ["param is invalid!\n"] }
  else
    let fileList := strings.Split f.input ','
    if fileList.length = 0 then State.idle { p with stderr := ["param is invalid!\n"] }
    else if f.thread < 0 then State.idle { p with exit := some 2 }
    else
      { cap := f.thread.toNat, pc := loopPc fileList, pending := fileList, queue := 0,
        wg := 0, running := [], recvN := 0, doneN := 0, proc := p, exiting := [],
        exitedBy := none }

/-- What a scheduler may pick next. -/
inductive Action where
  /-- The dispatcher runs its next statement. -/
  | main
  /-- The dispatcher's send meets a goroutine waiting at `<-queue` on an empty
  channel: the token is handed over directly. -/
  | handoff
  /-- The `i`-th goroutine of `running` calls `downloadFile`, in the world `w`,
  and runs it to its return or, in strict mode, to the `os.Exit(1)` of `check`,
  which it does not run yet. -/
  | download (i : Nat) (w : World)
  /-- The `j`-th goroutine of `exiting` runs its `os.Exit(1)`. -/
  | osExit (j : Nat)
  /-- A goroutine takes a token from the channel (`<-queue`). -/
  | receive
  /-- A goroutine calls `wg.Done()` and ends. -/
  | done

/-- One step of the program; `none` when the action cannot run: it is blocked,
there is no such goroutine, or the process has ended.

In `download`, `downloadFile` tells how the call goes when nothing else runs:
an exit status in its result means that the call has reached `os.Exit(1)` in
`check`, after the `Fprintf`.  The step stops there: the line is printed, the
process is alive, and the goroutine joins `exiting`; its `os.Exit(1)` is the
step `osExit`, so that other goroutines can call `check` and print in
between. -/
def step (f : Flags) (a : Action) (s : State) : Option State :=
  if s.proc.exit.isSome then none
  else
    match a with
    | .main =>
      match s.pc with
      | .send => if s.queue < s.cap then some { s with queue := s.queue + 1, pc := .add } else none
      | .add => some { s with wg := s.wg + 1, pc := .go }
      | .go =>
        match s.pending with
        | [] => none
        | file :: rest =>
          some { s with running := s.running ++ [file], pending := rest, pc := loopPc rest }
      | .wait => if s.wg = 0 then some { s with pc := .print } else none
      | .print =>
        some { s with proc := { s.proc with stdout := s.proc.stdout ++ ["download success!\n"] },
                      pc := .ret }
      | .ret => some { s with proc := { s.proc with exit := some 0 } }
    | .handoff =>
      if s.pc = .send ∧ s.queue = 0 ∧ 0 < s.recvN then
        some { s with pc := .add, recvN := s.recvN - 1, doneN := s.doneN + 1 }
      else none
    | .download i w =>
      match s.running[i]? with
      | none => none
      | some file =>
        let p := downloadFile w f.strictMode file f.outDir s.proc
        if p.exit.isSome then
          some { s with running := s.running.eraseIdx i, exiting := s.exiting ++ [file],
                        proc := { p with exit := none } }
        else
          some { s with running := s.running.eraseIdx i, recvN := s.recvN + 1, proc := p }
    | .osExit j =>
      match s.exiting[j]? with
      | none => none
      | some file =>
        some { s with proc := { s.proc with exit := some 1 }, exitedBy := some file }
    | .receive =>
      if 0 < s.recvN ∧ 0 < s.queue then
        some { s with queue := s.queue - 1, recvN := s.recvN - 1, doneN := s.doneN + 1 }
      else none
    | .done =>
      if 0 < s.doneN then
        some { s with doneN := s.doneN - 1, wg := s.wg - 1,
                      proc := if s.wg - 1 < 0 then { s.proc with exit := some 2 } else s.proc }
      else none

/-- The run of a schedule: the actions taken one after the other. -/
def exec (f : Flags) : List Action → State → Option State
  | [], s => some s
  | a :: as, s => (step f a s).bind (exec f as)

/-- The states the program can be in. -/
def Reachable (f : Flags) (fs : FS) (s : State) : Prop :=
  ∃ as, exec f as (start f fs) = some s

/-- The fetch tasks launched and not yet finished: the goroutines that have
not yet taken their token back from `queue`, those standing at `os.Exit(1)`
included. -/
def State.inFlight (s : State) : Nat :=
  s.running.length + s.recvN + s.exiting.length

/-- The input passes the validation of line 109. -/
def Flags.Valid (f : Flags) : Prop :=
  strings.TrimSpace f.input ≠ "" ∧ strings.TrimSpace f.outDir ≠ ""

instance (f : Flags) : Decidable f.Valid := by
  unfold Flags.Valid
  infer_instance

/-- A bound on the number of steps left. -/
def State.fuel (s : State) : Nat :=
  6 * s.pending.length +
    (match s.pc with
      | .send => 3 | .add => 2 | .go => 1 | .wait => 3 | .print => 2 | .ret => 1) +
    3 * s.running.length + 2 * s.recvN + s.doneN + (if s.proc.exit.isSome then 0 else 1)

/-- Every stage of the fetch of `file` succeeds in the world `w`: the
directory, the request, the content type, the creation of the file and the
copy of the body. -/
def World.fetchOk (w : World) (file path : String) : Bool :=
  match w.mkdirAll path, w.get file with
  | none, .ok resp =>
    match mimeLookup resp.contentType with
    | some kind =>
      (w.create path (if strings.HasSuffix (filepath.Base file) kind then filepath.Base file
        else filepath.Base file ++ "." ++ kind)).isNone && (w.copy file).isNone
    | none => false
  | _, _ => false

/-- The two ways a call can go: no call of `check`, or one. -/
def Went (strictMode : Bool) (file : String) (p q : Proc) : Prop :=
  (q.checks = p.checks ∧ q.stderr = p.stderr ∧ q.exit = none) ∨
  (∃ err, q.checks = p.checks ++ [(file, err)] ∧ q.stderr = p.stderr ++ [errLine file err] ∧
    q.exit = if strictMode then some 1 else none)

/-- What holds in every state of a run that started with the list `l0` pending
and a channel of capacity `c0`. -/
structure Inv (f : Flags) (l0 : List String) (c0 : Nat) (s : State) : Prop where
  cap_eq : s.cap = c0
  queue_le : s.queue ≤ s.cap
  flight_le : s.running.length + s.recvN + s.exiting.length + s.pc.hold ≤ s.queue
  alive_queue : s.proc.exit = none →
    s.queue = s.running.length + s.recvN + s.exiting.length + s.pc.hold
  alive_wg : s.proc.exit = none →
    s.wg = ((s.running.length + s.recvN + s.doneN + s.exiting.length + s.pc.added : Nat) : Int)
  pend : s.pending ≠ [] ↔ (s.pc = .send ∨ s.pc = .add ∨ s.pc = .go)
  fin : (s.pc = .print ∨ s.pc = .ret) →
    s.running = [] ∧ s.recvN = 0 ∧ s.doneN = 0 ∧ s.exiting = []
  quiet : s.pc ≠ .ret → s.proc.stdout = []
  said : l0 ≠ [] → s.pc = .ret → s.proc.stdout = ["download success!\n"]
  exits : s.proc.exit = none ∨ (s.proc.exit = some 0 ∧ s.pc = .ret) ∨
    (s.proc.exit = some 1 ∧ f.strictMode = true ∧ s.exiting ≠ []) ∨
    (s.proc.exit = some 2 ∧ f.thread < 0 ∧ s.proc.checks = [])
  strict_exiting : f.strictMode = true → s.proc.checks.map Prod.fst = s.exiting
  lenient_exiting : f.strictMode = false → s.exiting = []
  lenient_ret : f.strictMode = false → s.proc.returned = s.proc.invoked
  perm : l0.Perm (s.pending ++ s.running ++ s.proc.invoked)

/-! ## Sample inputs -/

/-- An empty disk. -/
def fs0 : FS := { dirs := [], files := [] }

/-- A world in which everything succeeds and the server answers `ct`. -/
def World.ok (ct : String) (body : List UInt8) : World :=
  { mkdirAll := fun _ => none, get := fun _ => .ok { contentType := ct, body := body },
    create := fun _ _ => none, copy := fun _ => none }

/-- A world in which the request fails. -/
def World.down : World :=
  { mkdirAll := fun _ => none, get := fun _ => .error "connection refused",
    create := fun _ _ => none, copy := fun _ => none }

/-- Three files, at most two at a time, lenient. -/
def flagsTwo : Flags :=
  { outDir := "out", input := "a.png,b.png,c.png", thread := 2, strictMode := false,
    helpFlag := false }

/-- Two files, at most two at a time, strict. -/
def flagsStrict : Flags :=
  { outDir := "out", input := "a.png,b.png", thread := 2, strictMode := true,
    helpFlag := false }

/-- One file, one at a time, lenient. -/
def flagsOne : Flags :=
  { outDir := "out", input := "a.png", thread := 1, strictMode := false, helpFlag := false }

/-- Two files and `-t 0`, lenient. -/
def flagsZero : Flags :=
  { outDir := "out", input := "a.png,b.png", thread := 0, strictMode := false,
    helpFlag := false }

/-- One file and `-t 0`, lenient. -/
def flagsZeroOne : Flags :=
  { outDir := "out", input := "a.png", thread := 0, strictMode := false, helpFlag := false }

/-- The state of `flagsTwo` after two rounds of the loop: two goroutines
started, none has run yet. -/
def stateTwo : State :=
  { cap := 2, pc := .send, pending := ["c.png"], queue := 2, wg := 2,
    running := ["a.png", "b.png"], recvN := 0, doneN := 0, proc := Proc.start fs0,
    exiting := [], exitedBy := none }

/-- The state of `flagsStrict` when both requests have failed and no
`os.Exit(1)` has run yet: two lines printed, two goroutines at `os.Exit(1)`. -/
def stateStrictBoth : State :=
  { cap := 2, pc := .wait, pending := [], queue := 2, wg := 2, running := [],
    recvN := 0, doneN := 0,
    proc := { stdout := [],
              stderr := ["a.png download err, reason: connection refused\n",
                         "b.png download err, reason: connection refused\n"],
              fs := { dirs := ["out"], files := [] }, openBodies := 0, openFiles := 0,
              invoked := ["a.png", "b.png"], returned := [],
              checks := [("a.png", "connection refused"), ("b.png", "connection refused")],
              creates := [], exit := none },
    exiting := ["a.png", "b.png"], exitedBy := none }

/-- The state of `flagsStrict` when, after both requests have failed, the
`os.Exit(1)` of the second call of `check` has run. -/
def stateStrictEnd : State :=
  { stateStrictBoth with
    proc := { stateStrictBoth.proc with exit := some 1 }, exitedBy := some "b.png" }

/-- The state in which the run of `flagsOne` ends when the one request fails. -/
def stateOne : State :=
  { cap := 1, pc := .ret, pending := [], queue := 0, wg := 0, running := [],
    recvN := 0, doneN := 0,
    proc := { stdout := ["download success!\n"],
              stderr := ["a.png download err, reason: connection refused\n"],
              fs := { dirs := ["out"], files := [] }, openBodies := 0, openFiles := 0,
              invoked := ["a.png"], returned := ["a.png"],
              checks := [("a.png", "connection refused")], creates := [], exit := some 0 },
    exiting := [], exitedBy := none }

/-! ## The table lookup -/

theorem lookup_mem {l : List (String × String)} {k v : String}
    (h : l.lookup k = some v) : (k, v) ∈ l := by
  induction l with
  | nil => simp at h
  | cons hd tl ih =>
    obtain ⟨k', v'⟩ := hd
    by_cases hk : k = k'
    · subst hk
      simp [List.lookup] at h
      simp [h]
    · have hb : (k == k') = false := by simpa using hk
      simp only [List.lookup, hb] at h
      exact List.mem_cons_of_mem _ (ih h)

theorem mem_lookup {l : List (String × String)} {k v : String}
    (hn : (l.map Prod.fst).Nodup) (h : (k, v) ∈ l) : l.lookup k = some v := by
  induction l with
  | nil => simp at h
  | cons hd tl ih =>
    obtain ⟨k', v'⟩ := hd
    simp only [List.map_cons, List.nodup_cons] at hn
    rcases List.mem_cons.1 h with h1 | h2
    · cases h1
      simp [List.lookup]
    · have hk : k ≠ k' := by
        intro hkk
        have hmem : (k, v).1 ∈ tl.map Prod.fst := List.mem_map_of_mem Prod.fst h2
        exact hn.1 (hkk ▸ hmem)
      have hb : (k == k') = false := by simpa using hk
      simp only [List.lookup, hb]
      exact ih hn.2 h2

theorem mimeTypeSet_keys_nodup : (mimeTypeSet.map Prod.fst).Nodup := by decide

theorem mimeLookup_eq_some (s e : String) :
    mimeLookup s = some e ↔ (s, e) ∈ mimeTypeSet :=
  ⟨lookup_mem, mem_lookup mimeTypeSet_keys_nodup⟩

theorem mimeLookup_eq_none (s : String) :
    mimeLookup s = none ↔ s ∉ mimeTypeSet.map Prod.fst := by
  constructor
  · intro h hs
    obtain ⟨⟨k, e⟩, hke, rfl⟩ := List.mem_map.1 hs
    rw [(mimeLookup_eq_some k e).2 hke] at h
    cases h
  · intro h
    cases hl : mimeLookup s with
    | none => rfl
    | some e =>
      exact absurd (List.mem_map_of_mem Prod.fst ((mimeLookup_eq_some s e).1 hl)) h

/-- What every entry of the table looks like: the key has no `;` and no upper
case letter, the extension is not empty and has neither `/` nor `.`. -/
theorem mimeTypeSet_shape :
    ∀ x ∈ mimeTypeSet, ';' ∉ x.1.data ∧ x.1.data.map Char.toLower = x.1.data ∧
      x.2.data ≠ [] ∧ '/' ∉ x.2.data ∧ '.' ∉ x.2.data := by
  decide

/-! ## One call of `downloadFile` -/

@[simp] theorem check_stdout (b : Bool) (file err : String) (p : Proc) :
    (check b file err p).stdout = p.stdout := by
  cases b <;> rfl

@[simp] theorem check_fs (b : Bool) (file err : String) (p : Proc) :
    (check b file err p).fs = p.fs := by
  cases b <;> rfl

@[simp] theorem check_openBodies (b : Bool) (file err : String) (p : Proc) :
    (check b file err p).openBodies = p.openBodies := by
  cases b <;> rfl

@[simp] theorem check_openFiles (b : Bool) (file err : String) (p : Proc) :
    (check b file err p).openFiles = p.openFiles := by
  cases b <;> rfl

@[simp] theorem check_invoked (b : Bool) (file err : String) (p : Proc) :
    (check b file err p).invoked = p.invoked := by
  cases b <;> rfl

@[simp] theorem check_returned (b : Bool) (file err : String) (p : Proc) :
    (check b file err p).returned = p.returned := by
  cases b <;> rfl

@[simp] theorem check_creates (b : Bool) (file err : String) (p : Proc) :
    (check b file err p).creates = p.creates := by
  cases b <;> rfl

@[simp] theorem check_stderr (b : Bool) (file err : String) (p : Proc) :
    (check b file err p).stderr = p.stderr ++ [errLine file err] := by
  cases b <;> rfl

@[simp] theorem check_checks (b : Bool) (file err : String) (p : Proc) :
    (check b file err p).checks = p.checks ++ [(file, err)] := by
  cases b <;> rfl

@[simp] theorem check_exit (b : Bool) (file err : String) (p : Proc) :
    (check b file err p).exit = if b then some 1 else p.exit := by
  cases b <;> rfl

theorem went_check (strictMode : Bool) (file err : String) (p q : Proc) (hq : q.exit = none)
    (hc : q.checks = p.checks) (hs : q.stderr = p.stderr) :
    Went strictMode file p (check strictMode file err q) :=
  Or.inr ⟨err, by simp [hc], by simp [hs], by simp [hq]⟩

theorem downloadBody_went (w : World) (strictMode : Bool) (file path : String)
    (resp : Response) (p : Proc) (hp : p.exit = none) :
    (downloadBody w strictMode file path resp p).stdout = p.stdout ∧
    (downloadBody w strictMode file path resp p).invoked = p.invoked ∧
    (downloadBody w strictMode file path resp p).returned = p.returned ∧
    (downloadBody w strictMode file path resp p).openBodies = p.openBodies ∧
    Went strictMode file p (downloadBody w strictMode file path resp p) := by
  unfold downloadBody
  rcases mimeLookup resp.contentType with _ | kind <;> dsimp only
  · exact ⟨by simp, by simp, by simp, by simp, went_check _ _ _ _ _ hp rfl rfl⟩
  · generalize (if (!strings.HasSuffix (filepath.Base file) kind) = true
      then filepath.Base file ++ "." ++ kind else filepath.Base file) = name
    rcases w.create path name with _ | err <;> dsimp only
    · rcases w.copy file with _ | ⟨n, err⟩ <;> dsimp only
      · exact ⟨rfl, rfl, rfl, rfl, Or.inl ⟨rfl, rfl, hp⟩⟩
      · exact ⟨by simp, by simp, by simp, by simp, went_check _ _ _ _ _ hp rfl rfl⟩
    · exact ⟨by simp, by simp, by simp, by simp, went_check _ _ _ _ _ hp rfl rfl⟩

theorem closeBody_went (strictMode : Bool) (file : String) (p q : Proc)
    (h : Went strictMode file p q) : Went strictMode file p q.closeBody := by
  unfold Proc.closeBody
  split
  · exact h
  · exact h

@[simp] theorem closeBody_stdout (p : Proc) : p.closeBody.stdout = p.stdout := by
  unfold Proc.closeBody; split <;> rfl

@[simp] theorem closeBody_invoked (p : Proc) : p.closeBody.invoked = p.invoked := by
  unfold Proc.closeBody; split <;> rfl

@[simp] theorem closeBody_returned (p : Proc) : p.closeBody.returned = p.returned := by
  unfold Proc.closeBody; split <;> rfl

@[simp] theorem closeBody_creates (p : Proc) : p.closeBody.creates = p.creates := by
  unfold Proc.closeBody; split <;> rfl

@[simp] theorem closeBody_checks (p : Proc) : p.closeBody.checks = p.checks := by
  unfold Proc.closeBody; split <;> rfl

@[simp] theorem closeBody_stderr (p : Proc) : p.closeBody.stderr = p.stderr := by
  unfold Proc.closeBody; split <;> rfl

@[simp] theorem closeBody_fs (p : Proc) : p.closeBody.fs = p.fs := by
  unfold Proc.closeBody; split <;> rfl

@[simp] theorem closeBody_openFiles (p : Proc) : p.closeBody.openFiles = p.openFiles := by
  unfold Proc.closeBody; split <;> rfl

@[simp] theorem closeBody_exit (p : Proc) : p.closeBody.exit = p.exit := by
  unfold Proc.closeBody; split <;> rfl

@[simp] theorem ret_stdout (file : String) (p : Proc) : (p.ret file).stdout = p.stdout := by
  unfold Proc.ret; split <;> rfl

@[simp] theorem ret_invoked (file : String) (p : Proc) : (p.ret file).invoked = p.invoked := by
  unfold Proc.ret; split <;> rfl

@[simp] theorem ret_creates (file : String) (p : Proc) : (p.ret file).creates = p.creates := by
  unfold Proc.ret; split <;> rfl

@[simp] theorem ret_checks (file : String) (p : Proc) : (p.ret file).checks = p.checks := by
  unfold Proc.ret; split <;> rfl

@[simp] theorem ret_stderr (file : String) (p : Proc) : (p.ret file).stderr = p.stderr := by
  unfold Proc.ret; split <;> rfl

@[simp] theorem ret_fs (file : String) (p : Proc) : (p.ret file).fs = p.fs := by
  unfold Proc.ret; split <;> rfl

@[simp] theorem ret_openFiles (file : String) (p : Proc) :
    (p.ret file).openFiles = p.openFiles := by
  unfold Proc.ret; split <;> rfl

@[simp] theorem ret_openBodies (file : String) (p : Proc) :
    (p.ret file).openBodies = p.openBodies := by
  unfold Proc.ret; split <;> rfl

@[simp] theorem ret_exit (file : String) (p : Proc) : (p.ret file).exit = p.exit := by
  unfold Proc.ret; split <;> rfl

theorem ret_returned (file : String) (p : Proc) :
    (p.ret file).returned = if p.exit.isSome then p.returned else p.returned ++ [file] := by
  unfold Proc.ret; split <;> rfl

/-- What one call of `downloadFile` does to the logs, the streams and the exit
status, when the process is alive at entry: nothing is printed on standard
output, the call is logged, and either the call returns without a call of
`check`, or `check` is called once, with `file` and an error, and the call
returns exactly when the mode is not strict. -/
theorem downloadFile_outcome (w : World) (strictMode : Bool) (file path : String) (p : Proc)
    (hp : p.exit = none) :
    (downloadFile w strictMode file path p).stdout = p.stdout ∧
    (downloadFile w strictMode file path p).invoked = p.invoked ++ [file] ∧
    (((downloadFile w strictMode file path p).checks = p.checks ∧
      (downloadFile w strictMode file path p).stderr = p.stderr ∧
      (downloadFile w strictMode file path p).exit = none ∧
      (downloadFile w strictMode file path p).returned = p.returned ++ [file]) ∨
     (∃ err, (downloadFile w strictMode file path p).checks = p.checks ++ [(file, err)] ∧
      (downloadFile w strictMode file path p).stderr = p.stderr ++ [errLine file err] ∧
      (downloadFile w strictMode file path p).exit = (if strictMode then some 1 else none) ∧
      (downloadFile w strictMode file path p).returned =
        (if strictMode then p.returned else p.returned ++ [file]))) := by
  have key : ∀ q : Proc, q.stdout = p.stdout → q.invoked = p.invoked ++ [file] →
      q.returned = p.returned → Went strictMode file p q →
      (q.ret file).stdout = p.stdout ∧ (q.ret file).invoked = p.invoked ++ [file] ∧
      (((q.ret file).checks = p.checks ∧ (q.ret file).stderr = p.stderr ∧
        (q.ret file).exit = none ∧ (q.ret file).returned = p.returned ++ [file]) ∨
       (∃ err, (q.ret file).checks = p.checks ++ [(file, err)] ∧
        (q.ret file).stderr = p.stderr ++ [errLine file err] ∧
        (q.ret file).exit = (if strictMode then some 1 else none) ∧
        (q.ret file).returned = (if strictMode then p.returned else p.returned ++ [file]))) := by
    intro q h1 h2 h3 hw
    refine ⟨by simp [h1], by simp [h2], ?_⟩
    rcases hw with ⟨a, b, c⟩ | ⟨err, a, b, c⟩
    · exact Or.inl ⟨by simp [a], by simp [b], by simp [c], by simp [ret_returned, c, h3]⟩
    · refine Or.inr ⟨err, by simp [a], by simp [b], by simp [c], ?_⟩
      cases strictMode <;> simp [ret_returned, c, h3]
  unfold downloadFile
  rcases w.mkdirAll path with _ | err <;> dsimp only
  · rcases w.get file with err | resp <;> dsimp only
    · exact key _ (by simp) (by simp) (by simp) (went_check _ _ _ _ _ hp rfl rfl)
    · obtain ⟨b1, b2, b3, _, b5⟩ := downloadBody_went w strictMode file path resp
        { p with invoked := p.invoked ++ [file], fs := p.fs.mkdir path,
                 openBodies := p.openBodies + 1 } hp
      exact key _ (by simp [b1]) (by simp [b2]) (by simp [b3]) (closeBody_went _ _ _ _ b5)
  · exact key _ (by simp) (by simp) (by simp) (went_check _ _ _ _ _ hp rfl rfl)

/-- The name `downloadFile` gives the file: lines 154 and 161 to 163. -/
theorem downloadFile_creates (w : World) (strictMode : Bool) (file path : String) (p : Proc)
    (resp : Response) (e : String) (hm : w.mkdirAll path = none) (hg : w.get file = .ok resp)
    (he : mimeLookup resp.contentType = some e) :
    (downloadFile w strictMode file path p).creates = p.creates ++
      [(path, if strings.HasSuffix (filepath.Base file) e then filepath.Base file
              else filepath.Base file ++ "." ++ e)] := by
  have hn : (if (!strings.HasSuffix (filepath.Base file) e) = true
      then filepath.Base file ++ "." ++ e else filepath.Base file) =
      (if strings.HasSuffix (filepath.Base file) e then filepath.Base file
              else filepath.Base file ++ "." ++ e) := by
    cases strings.HasSuffix (filepath.Base file) e <;> rfl
  have hb : ∀ q : Proc, (downloadBody w strictMode file path resp q).creates = q.creates ++
      [(path, if strings.HasSuffix (filepath.Base file) e then filepath.Base file
              else filepath.Base file ++ "." ++ e)] := by
    intro q
    unfold downloadBody
    simp only [he, hn]
    generalize (if strings.HasSuffix (filepath.Base file) e then filepath.Base file
              else filepath.Base file ++ "." ++ e) = name
    rcases w.create path name with _ | err <;> dsimp only
    · rcases w.copy file with _ | ⟨n, err⟩ <;> simp
    · simp
  unfold downloadFile
  simp only [hm, hg, ret_creates, closeBody_creates, hb]

theorem hasSuffix_iff (s t : String) :
    strings.HasSuffix s t = true ↔ t.data <:+ s.data := by
  simp only [strings.HasSuffix, Bool.and_eq_true, decide_eq_true_eq]
  constructor
  · rintro ⟨_, h⟩
    rw [← h]
    exact List.drop_suffix _ _
  · intro h
    refine ⟨h.length_le, ?_⟩
    obtain ⟨u, hu⟩ := h
    rw [← hu]
    simp

/-! ## The name of the file -/

theorem base_of_nonslash (file : String) (c : Char) (hc : c ∈ file.data) (hs : c ≠ '/') :
    (filepath.Base file).data ≠ [] ∧ '/' ∉ (filepath.Base file).data := by
  have hne : file.data ≠ [] := List.ne_nil_of_mem hc
  have hd : file.data.reverse.dropWhile (fun c => c == '/') ≠ [] := by
    rw [Ne, List.dropWhile_eq_nil_iff]
    intro h
    have := h c (List.mem_reverse.2 hc)
    simp [hs] at this
  have hhead := List.head_dropWhile_not (fun c => c == '/') file.data.reverse hd
  have ht : (file.data.reverse.dropWhile (fun c => c == '/')).takeWhile (fun c => c != '/')
      ≠ [] := by
    cases hl : file.data.reverse.dropWhile (fun c => c == '/') with
    | nil => exact absurd hl hd
    | cons x xs =>
      simp only [hl, List.head_cons] at hhead
      have hx : (x != '/') = true := by simpa [bne] using hhead
      simp [List.takeWhile_cons, hx]
  have hnil : ¬ ((file.data.reverse.dropWhile (fun c => c == '/')).takeWhile
      (fun c => c != '/')).reverse = [] := by simpa using ht
  simp only [filepath.Base, hne, if_false, List.reverse_reverse, hnil]
  refine ⟨by simpa using ht, ?_⟩
  intro hm
  have := List.mem_takeWhile_imp (List.mem_reverse.1 hm)
  simp at this

theorem base_of_component (name : String) (hne : name.data ≠ [])
    (hs : '/' ∉ name.data) : filepath.Base name = name := by
  have h1 : name.data.reverse.dropWhile (fun c => c == '/') = name.data.reverse := by
    cases hl : name.data.reverse with
    | nil => rfl
    | cons x xs =>
      have hx : x ∈ name.data := List.mem_reverse.1 (hl ▸ List.mem_cons_self x xs)
      have : x ≠ '/' := fun h => hs (h ▸ hx)
      simp [List.dropWhile_cons, this]
  have h2 : name.data.reverse.takeWhile (fun c => c != '/') = name.data.reverse := by
    rw [List.takeWhile_eq_self_iff]
    intro x hx
    have : x ≠ '/' := fun h => hs (h ▸ List.mem_reverse.1 hx)
    simpa using this
  simp only [filepath.Base, hne, if_false, List.reverse_reverse, h1, h2]

/-- The file name made of a base without `/` and an extension of the table is
a plain name: no `/`, not `"."`, not `".."`. -/
theorem name_is_plain (base e : String) (hb : base.data ≠ []) (hbs : '/' ∉ base.data)
    (he : e.data ≠ []) (hes : '/' ∉ e.data) (hed : '.' ∉ e.data) :
    '/' ∉ (if strings.HasSuffix base e then base else base ++ "." ++ e).data ∧
    (if strings.HasSuffix base e then base else base ++ "." ++ e).data ≠ [] ∧
    (if strings.HasSuffix base e then base else base ++ "." ++ e) ≠ "." ∧
    (if strings.HasSuffix base e then base else base ++ "." ++ e) ≠ ".." := by
  obtain ⟨x, hx⟩ := List.exists_mem_of_ne_nil _ he
  have hxd : x ≠ '.' := fun h => hed (h ▸ hx)
  cases hs : strings.HasSuffix base e
  · have hdata : (base ++ "." ++ e).data = base.data ++ '.' :: e.data := by
      simp [String.data_append]
    have hxm : x ∈ (base ++ "." ++ e).data := by rw [hdata]; simp [hx]
    simp only [Bool.false_eq_true, if_false]
    refine ⟨?_, List.ne_nil_of_mem hxm, ?_, ?_⟩
    · rw [hdata]
      simp [hbs, hes]
    · intro h
      rw [h] at hxm
      simp at hxm
      exact hxd hxm
    · intro h
      rw [h] at hxm
      simp at hxm
      exact hxd hxm
  · have hsuf : e.data <:+ base.data := (hasSuffix_iff base e).1 hs
    have hxm : x ∈ base.data := hsuf.subset hx
    simp only [if_true]
    refine ⟨hbs, hb, ?_, ?_⟩
    · intro h
      rw [h] at hxm
      simp at hxm
      exact hxd hxm
    · intro h
      rw [h] at hxm
      simp at hxm
      exact hxd hxm

@[simp] theorem mkdir_files (fs : FS) (path : String) : (fs.mkdir path).files = fs.files := by
  unfold FS.mkdir; split <;> rfl

theorem not_hasSuffix_ite (base e : String) :
    (if (!strings.HasSuffix base e) = true then base ++ "." ++ e else base) =
      (if strings.HasSuffix base e then base else base ++ "." ++ e) := by
  cases strings.HasSuffix base e <;> rfl

/-! ## The claims about one call of `downloadFile` -/

/-- C5: for every URL and every content type of `mimeTypeSet`, with extension
`e`, the file `downloadFile` creates is named `filepath.Base` of the URL when
that name already ends with `e` (`strings.HasSuffix`, which holds exactly when
`e` is a suffix, character for character), and that name followed by `"."` and
`e` otherwise; `.../logo.png` served as `image/png` gives `logo.png`, and
`.../asset?id=1` served as `application/pdf` gives `asset?id=1.pdf`. -/
theorem downloadFile_filename (w : World) (strictMode : Bool) (file path : String) (p : Proc)
    (resp : Response) (e : String) (hm : w.mkdirAll path = none) (hg : w.get file = .ok resp)
    (he : mimeLookup resp.contentType = some e) :
    (downloadFile w strictMode file path p).creates = p.creates ++
      [(path, if strings.HasSuffix (filepath.Base file) e then filepath.Base file
              else filepath.Base file ++ "." ++ e)] ∧
    (strings.HasSuffix (filepath.Base file) e = true ↔
      ∃ u : List Char, (filepath.Base file).data = u ++ e.data) ∧
    (downloadFile (World.ok "image/png" []) strictMode "http://example.com/img/logo.png" path
      (Proc.start fs0)).creates = [(path, "logo.png")] ∧
    (downloadFile (World.ok "application/pdf" []) strictMode "http://example.com/asset?id=1" path
      (Proc.start fs0)).creates = [(path, "asset?id=1.pdf")] := by
  refine ⟨downloadFile_creates w strictMode file path p resp e hm hg he, ?_, ?_, ?_⟩
  · rw [hasSuffix_iff]
    constructor
    · rintro ⟨u, hu⟩
      exact ⟨u, hu.symm⟩
    · rintro ⟨u, hu⟩
      exact ⟨u, hu.symm⟩
  · rw [downloadFile_creates (World.ok "image/png" []) strictMode "http://example.com/img/logo.png"
      path (Proc.start fs0) ⟨"image/png", []⟩ "png" rfl rfl (by decide)]
    have : (if strings.HasSuffix (filepath.Base "http://example.com/img/logo.png") "png"
        then filepath.Base "http://example.com/img/logo.png"
        else filepath.Base "http://example.com/img/logo.png" ++ "." ++ "png") = "logo.png" := by
      decide
    rw [this]
    rfl
  · rw [downloadFile_creates (World.ok "application/pdf" []) strictMode
      "http://example.com/asset?id=1" path (Proc.start fs0) ⟨"application/pdf", []⟩ "pdf"
      rfl rfl (by decide)]
    have : (if strings.HasSuffix (filepath.Base "http://example.com/asset?id=1") "pdf"
        then filepath.Base "http://example.com/asset?id=1"
        else filepath.Base "http://example.com/asset?id=1" ++ "." ++ "pdf")
        = "asset?id=1.pdf" := by
      decide
    rw [this]
    rfl

/-- C5 at a sample call: `photo.jpg` served as `image/jpeg`, whose extension
`jpg` the name already has. -/
theorem downloadFile_filename_witness :
    (downloadFile (World.ok "image/jpeg" [1, 2]) false "http://example.com/a/photo.jpg" "out"
        (Proc.start fs0)).creates = [("out", "photo.jpg")] := by
  have h := (downloadFile_filename (World.ok "image/jpeg" [1, 2]) false
    "http://example.com/a/photo.jpg" "out" (Proc.start fs0) ⟨"image/jpeg", [1, 2]⟩ "jpg"
    rfl rfl (by decide)).1
  have hn : (if strings.HasSuffix (filepath.Base "http://example.com/a/photo.jpg") "jpg"
      then filepath.Base "http://example.com/a/photo.jpg"
      else filepath.Base "http://example.com/a/photo.jpg" ++ "." ++ "jpg") = "photo.jpg" := by
    decide
  rw [hn] at h
  exact h

/-- C6: the lookup in `mimeTypeSet` finds an extension for a string exactly
when the string is, character for character, a key of the table, and then it
is that key's extension (`image/png` gives `png`); so a string with a `;`, a
key with the case of some letter changed, the empty string and `text/plain`
are not found. -/
theorem mimeLookup_exact_match :
    (∀ s e, mimeLookup s = some e ↔ (s, e) ∈ mimeTypeSet) ∧
    (∀ s, mimeLookup s = none ↔ s ∉ mimeTypeSet.map Prod.fst) ∧
    mimeLookup "image/png" = some "png" ∧
    (∀ s : String, ';' ∈ s.data → mimeLookup s = none) ∧
    (∀ k ∈ mimeTypeSet.map Prod.fst, ∀ s : String, s ≠ k →
      s.data.map Char.toLower = k.data.map Char.toLower → mimeLookup s = none) ∧
    mimeLookup "image/png; charset=utf-8" = none ∧
    mimeLookup "IMAGE/PNG" = none ∧
    mimeLookup "" = none ∧
    mimeLookup "text/plain" = none := by
  refine ⟨mimeLookup_eq_some, mimeLookup_eq_none, by decide, ?_, ?_, by decide, by decide,
    by decide, by decide⟩
  · intro s hs
    rw [mimeLookup_eq_none]
    intro hmem
    obtain ⟨x, hx, rfl⟩ := List.mem_map.1 hmem
    exact (mimeTypeSet_shape x hx).1 hs
  · intro k hk s hne hlow
    rw [mimeLookup_eq_none]
    intro hmem
    obtain ⟨x, hx, rfl⟩ := List.mem_map.1 hmem
    obtain ⟨y, hy, rfl⟩ := List.mem_map.1 hk
    apply hne
    have h1 := (mimeTypeSet_shape x hx).2.1
    have h2 := (mimeTypeSet_shape y hy).2.1
    have : x.1.data = y.1.data := by rw [← h1, ← h2, hlow]
    exact String.ext this

/-- C7: when the request succeeds and the `Content-Type` is missing (the
header reads as the empty string) or is not a key of `mimeTypeSet`,
`downloadFile` calls `check` once, with the reason `not match mime type`, and
creates and writes nothing: `os.Create` is not called, no file is opened, and
the files on disk and their contents are what they were (the target directory
itself may have been made by `os.MkdirAll` before the request). -/
theorem downloadFile_unknown_type (w : World) (strictMode : Bool) (file path : String)
    (p : Proc) (resp : Response) (hm : w.mkdirAll path = none) (hg : w.get file = .ok resp)
    (hk : resp.contentType = "" ∨ resp.contentType ∉ mimeTypeSet.map Prod.fst) :
    (downloadFile w strictMode file path p).checks
      = p.checks ++ [(file, "not match mime type")] ∧
    (downloadFile w strictMode file path p).stderr
      = p.stderr ++ [file ++ " download err, reason: not match mime type\n"] ∧
    (downloadFile w strictMode file path p).creates = p.creates ∧
    (downloadFile w strictMode file path p).openFiles = p.openFiles ∧
    (downloadFile w strictMode file path p).fs.files = p.fs.files := by
  have hl : mimeLookup resp.contentType = none := by
    rcases hk with h | h
    · rw [h]; decide
    · exact (mimeLookup_eq_none _).2 h
  have hline : errLine file "not match mime type"
      = file ++ " download err, reason: not match mime type\n" := by
    simp [errLine, String.append_assoc]
  unfold downloadFile
  simp only [hm, hg]
  unfold downloadBody
  simp only [hl]
  refine ⟨by simp, by simp [hline], by simp, by simp, by simp⟩

/-- C7 at a sample call: a page served as `text/plain`. -/
theorem downloadFile_unknown_type_witness :
    (downloadFile (World.ok "text/plain" [104, 105]) false "http://example.com/notes" "out"
        (Proc.start fs0)).checks = [("http://example.com/notes", "not match mime type")] ∧
    (downloadFile (World.ok "text/plain" [104, 105]) false "http://example.com/notes" "out"
        (Proc.start fs0)).fs.files = [] :=
  have h := downloadFile_unknown_type (World.ok "text/plain" [104, 105]) false
    "http://example.com/notes" "out" (Proc.start fs0) ⟨"text/plain", [104, 105]⟩ rfl rfl
    (Or.inr (by decide))
  ⟨h.1, h.2.2.2.2⟩

/-- C8, what the code does: in every call of `downloadFile` in which
`os.Create` succeeds and which returns, the response body has been closed but
the file has not: one more file is open after the call than before. -/
theorem downloadFile_leaves_file_open (w : World) (strictMode : Bool) (file path : String)
    (p : Proc) (resp : Response) (e : String) (hp : p.exit = none)
    (hm : w.mkdirAll path = none) (hg : w.get file = .ok resp)
    (he : mimeLookup resp.contentType = some e)
    (hc : w.create path (if strings.HasSuffix (filepath.Base file) e then filepath.Base file
              else filepath.Base file ++ "." ++ e) = none)
    (hret : (downloadFile w strictMode file path p).exit = none) :
    (downloadFile w strictMode file path p).returned = p.returned ++ [file] ∧
    (downloadFile w strictMode file path p).openBodies = p.openBodies ∧
    (downloadFile w strictMode file path p).openFiles = p.openFiles + 1 := by
  revert hret
  unfold downloadFile
  simp only [hm, hg]
  unfold downloadBody
  simp only [he, not_hasSuffix_ite, hc]
  rcases w.copy file with _ | ⟨n, err⟩ <;> dsimp only
  · intro _
    simp [Proc.closeBody, Proc.ret, hp]
  · cases strictMode
    · intro _
      simp [Proc.closeBody, Proc.ret, hp, check]
    · intro h
      simp [Proc.closeBody, Proc.ret, check] at h

/-- C8 at a sample call: a PNG image downloaded without any error; the call
returns with no response body open and one file open. -/
theorem downloadFile_leaves_file_open_witness :
    (downloadFile (World.ok "image/png" [137, 80, 78, 71]) false "http://example.com/logo.png"
        "out" (Proc.start fs0)).exit = none ∧
    (downloadFile (World.ok "image/png" [137, 80, 78, 71]) false "http://example.com/logo.png"
        "out" (Proc.start fs0)).checks = [] ∧
    (downloadFile (World.ok "image/png" [137, 80, 78, 71]) false "http://example.com/logo.png"
        "out" (Proc.start fs0)).openBodies = 0 ∧
    (downloadFile (World.ok "image/png" [137, 80, 78, 71]) false "http://example.com/logo.png"
        "out" (Proc.start fs0)).openFiles = 1 :=
  have h := downloadFile_leaves_file_open (World.ok "image/png" [137, 80, 78, 71]) false
    "http://example.com/logo.png" "out" (Proc.start fs0) ⟨"image/png", [137, 80, 78, 71]⟩ "png"
    rfl rfl rfl (by decide) rfl (by decide)
  ⟨by decide, by decide, h.2.1, h.2.2⟩

/-- C10: for every URL with a character other than `/` and every content type
of `mimeTypeSet`, the name of the file `downloadFile` creates has no `/`, is
not `"."` and is not `".."`; it is a single path element (`filepath.Base`
leaves it as it is), so the file lies directly in the target directory. -/
theorem downloadFile_name_stays_inside (w : World) (strictMode : Bool) (file path : String)
    (p : Proc) (resp : Response) (e : String) (c : Char) (hc : c ∈ file.data) (hs : c ≠ '/')
    (hm : w.mkdirAll path = none) (hg : w.get file = .ok resp)
    (he : mimeLookup resp.contentType = some e) :
    ∃ name : String, (downloadFile w strictMode file path p).creates = p.creates ++ [(path, name)] ∧
      '/' ∉ name.data ∧ name ≠ "." ∧ name ≠ ".." ∧ filepath.Base name = name := by
  obtain ⟨hb, hbs⟩ := base_of_nonslash file c hc hs
  obtain ⟨_, _, h3, h4, h5⟩ := mimeTypeSet_shape _ ((mimeLookup_eq_some _ _).1 he)
  obtain ⟨n1, n2, n3, n4⟩ := name_is_plain (filepath.Base file) e hb hbs h3 h4 h5
  exact ⟨_, downloadFile_creates w strictMode file path p resp e hm hg he, n1, n3, n4,
    base_of_component _ n2 n1⟩

/-- C10 at a sample call: the URL `http://example.com/a/..`, whose last
element is `..`, served as `image/gif`, gives the file name `...gif`. -/
theorem downloadFile_name_stays_inside_witness :
    ∃ name : String,
      (downloadFile (World.ok "image/gif" []) false "http://example.com/a/.." "out"
        (Proc.start fs0)).creates = (Proc.start fs0).creates ++ [("out", name)] ∧
      '/' ∉ name.data ∧ name ≠ "." ∧ name ≠ ".." ∧ filepath.Base name = name :=
  downloadFile_name_stays_inside (World.ok "image/gif" []) false "http://example.com/a/.." "out"
    (Proc.start fs0) ⟨"image/gif", []⟩ "gif" 'h' (by decide) (by decide) rfl rfl (by decide)

/-! ## The invariant of `main` -/

theorem splitAux_ne_nil (sep : Char) (l cur : List Char) : strings.splitAux sep l cur ≠ [] := by
  induction l generalizing cur with
  | nil => simp [strings.splitAux]
  | cons c cs ih =>
    unfold strings.splitAux
    split
    · simp
    · exact ih _

theorem split_ne_nil (s : String) (sep : Char) : strings.Split s sep ≠ [] :=
  splitAux_ne_nil sep s.data []

theorem inv_start (f : Flags) (fs : FS) :
    Inv f (start f fs).pending (start f fs).cap (start f fs) := by
  unfold start
  split
  · constructor <;> simp [State.idle, Proc.start, Pc.hold, Pc.added]
  · split
    · constructor <;> simp [State.idle, Proc.start, Pc.hold, Pc.added]
    · dsimp only
      split
      · constructor <;> simp [State.idle, Proc.start, Pc.hold, Pc.added]
      · split
        · rename_i ht
          constructor <;> simp [State.idle, Proc.start, Pc.hold, Pc.added, ht]
        · cases hl : strings.Split f.input ',' with
          | nil => exact absurd hl (split_ne_nil _ _)
          | cons x xs =>
            constructor <;> simp [Proc.start, Pc.hold, Pc.added, loopPc]

theorem inv_main (f : Flags) (l0 : List String) (c0 : Nat) (s s' : State)
    (h : Inv f l0 c0 s) (hs : step f .main s = some s') : Inv f l0 c0 s' := by
  obtain ⟨cap, pc, pending, queue, wg, running, recvN, doneN, proc, exiting, exitedBy⟩ := s
  obtain ⟨h1, h2, h3, h4, h5, h6, h7, h8, h9, h10, h11, h12, h13, h14⟩ := h
  simp only [step] at hs
  split at hs
  · cases hs
  · rename_i hx
    have hx' : proc.exit = none := by simpa using hx
    cases pc <;> simp only at hs
    · -- send
      split at hs
      · cases hs
        constructor <;> simp_all [Pc.hold, Pc.added]
        omega
      · cases hs
    · -- add
      cases hs
      constructor <;> simp_all [Pc.hold, Pc.added]
    · -- go
      split at hs
      · cases hs
      · cases hs
        rename_i file rest
        have hperm : l0.Perm (rest ++ (running ++ [file]) ++ proc.invoked) := by
          refine h14.trans ?_
          simp only [List.append_assoc, List.cons_append, List.singleton_append]
          refine List.perm_middle.symm.trans ?_
          exact List.Perm.append_left rest List.perm_middle.symm
        cases rest <;> constructor <;> simp_all [Pc.hold, Pc.added, loopPc] <;> omega
    · -- wait
      split at hs
      · cases hs
        constructor <;> simp_all [Pc.hold, Pc.added]
        exact ⟨List.length_eq_zero.1 (by omega), by omega, by omega,
          List.length_eq_zero.1 (by omega)⟩
      · cases hs
    · -- print
      cases hs
      constructor <;> simp_all [Pc.hold, Pc.added]
    · -- ret
      cases hs
      constructor <;> simp_all [Pc.hold, Pc.added]

theorem inv_handoff (f : Flags) (l0 : List String) (c0 : Nat) (s s' : State)
    (h : Inv f l0 c0 s) (hs : step f .handoff s = some s') : Inv f l0 c0 s' := by
  obtain ⟨cap, pc, pending, queue, wg, running, recvN, doneN, proc, exiting, exitedBy⟩ := s
  obtain ⟨h1, h2, h3, h4, h5, h6, h7, h8, h9, h10, h11, h12, h13, h14⟩ := h
  simp only [step] at hs
  split at hs
  · cases hs
  · rename_i hx
    have hx' : proc.exit = none := by simpa using hx
    split at hs
    · rename_i hc
      obtain ⟨hc1, hc2, hc3⟩ := hc
      cases hs
      constructor <;> simp_all [Pc.hold, Pc.added]
    · cases hs

theorem inv_receive (f : Flags) (l0 : List String) (c0 : Nat) (s s' : State)
    (h : Inv f l0 c0 s) (hs : step f .receive s = some s') : Inv f l0 c0 s' := by
  obtain ⟨cap, pc, pending, queue, wg, running, recvN, doneN, proc, exiting, exitedBy⟩ := s
  obtain ⟨h1, h2, h3, h4, h5, h6, h7, h8, h9, h10, h11, h12, h13, h14⟩ := h
  simp only [step] at hs
  split at hs
  · cases hs
  · rename_i hx
    have hx' : proc.exit = none := by simpa using hx
    split at hs
    · rename_i hc
      obtain ⟨hc1, hc2⟩ := hc
      cases hs
      have hq := h4 hx'
      have hw := h5 hx'
      simp only at hq hw hc1 hc2 h2 h3
      constructor
      · exact h1
      · simp only; omega
      · simp only; omega
      · intro _; simp only; omega
      · intro _; simp only; omega
      · exact h6
      · intro hp
        have := h7 hp
        simp only at this
        exact ⟨this.1, by omega, by omega, this.2.2.2⟩
      · exact h8
      · exact h9
      · exact h10
      · exact h11
      · exact h12
      · exact h13
      · exact h14
    · cases hs

theorem inv_done (f : Flags) (l0 : List String) (c0 : Nat) (s s' : State)
    (h : Inv f l0 c0 s) (hs : step f .done s = some s') : Inv f l0 c0 s' := by
  obtain ⟨cap, pc, pending, queue, wg, running, recvN, doneN, proc, exiting, exitedBy⟩ := s
  obtain ⟨h1, h2, h3, h4, h5, h6, h7, h8, h9, h10, h11, h12, h13, h14⟩ := h
  simp only [step] at hs
  split at hs
  · cases hs
  · rename_i hx
    have hx' : proc.exit = none := by simpa using hx
    split at hs
    · rename_i hc
      have hwg := h5 hx'
      simp only at hwg hc
      have hneg : ¬ (wg - 1 < 0) := by omega
      simp only [hneg, if_false] at hs
      cases hs
      constructor <;> simp_all [Pc.hold, Pc.added]
      omega
    · cases hs

theorem perm_eraseIdx {α : Type} (l : List α) (i : Nat) (x : α) (h : l[i]? = some x) :
    l.Perm (x :: l.eraseIdx i) := by
  induction l generalizing i with
  | nil => simp at h
  | cons a t ih =>
    cases i with
    | zero =>
      simp at h
      subst h
      simp
    | succ j =>
      simp at h
      simp only [List.eraseIdx_cons_succ]
      exact (List.Perm.cons a (ih j h)).trans (List.Perm.swap x a _)

theorem length_eraseIdx_add_one {α : Type} (l : List α) (i : Nat) (x : α) (h : l[i]? = some x) :
    (l.eraseIdx i).length + 1 = l.length := by
  have := (perm_eraseIdx l i x h).length_eq
  simp at this
  omega

theorem inv_osExit (f : Flags) (l0 : List String) (c0 : Nat) (s s' : State) (j : Nat)
    (h : Inv f l0 c0 s) (hs : step f (.osExit j) s = some s') : Inv f l0 c0 s' := by
  obtain ⟨cap, pc, pending, queue, wg, running, recvN, doneN, proc, exiting, exitedBy⟩ := s
  obtain ⟨h1, h2, h3, h4, h5, h6, h7, h8, h9, h10, h11, h12, h13, h14⟩ := h
  simp only [step] at hs
  split at hs
  · cases hs
  · rename_i hx
    split at hs
    · cases hs
    · rename_i file hfile
      cases hs
      dsimp only at h1 h2 h3 h6 h7 h8 h9 h11 h12 h13 h14 hfile
      have hne : exiting ≠ [] := by
        intro he
        rw [he] at hfile
        simp at hfile
      have hstrict : f.strictMode = true := by
        rcases Bool.eq_false_or_eq_true f.strictMode with hst | hst
        · exact hst
        · exact absurd (h12 hst) hne
      constructor
      all_goals try dsimp only
      · exact h1
      · exact h2
      · exact h3
      · intro hn; cases hn
      · intro hn; cases hn
      · exact h6
      · exact h7
      · exact h8
      · exact h9
      · exact Or.inr (Or.inr (Or.inl ⟨rfl, hstrict, hne⟩))
      · exact h11
      · exact h12
      · exact h13
      · exact h14

theorem inv_download (f : Flags) (l0 : List String) (c0 : Nat) (s s' : State) (i : Nat)
    (w : World) (h : Inv f l0 c0 s) (hs : step f (.download i w) s = some s') :
    Inv f l0 c0 s' := by
  obtain ⟨cap, pc, pending, queue, wg, running, recvN, doneN, proc, exiting, exitedBy⟩ := s
  obtain ⟨h1, h2, h3, h4, h5, h6, h7, h8, h9, h10, h11, h12, h13, h14⟩ := h
  simp only [step] at hs
  split at hs
  · cases hs
  · rename_i hx
    have hx' : proc.exit = none := by simpa using hx
    split at hs
    · cases hs
    · rename_i file hfile
      have hq := h4 hx'
      have hw := h5 hx'
      have hlen := length_eraseIdx_add_one running i file hfile
      have hfin : ¬ (pc = .print ∨ pc = .ret) := by
        intro hp
        have := (h7 hp).1
        dsimp only at this
        rw [this] at hlen
        simp at hlen
      have hpc : pc ≠ .ret := fun hp => hfin (Or.inr hp)
      obtain ⟨o1, o2, o3⟩ := downloadFile_outcome w f.strictMode file f.outDir proc hx'
      dsimp only at hq hw h1 h2 h3 h6 h8 h9 h10 h11 h12 h13 h14
      have hperm : l0.Perm (pending ++ running.eraseIdx i ++ (proc.invoked ++ [file])) := by
        refine h14.trans ?_
        simp only [List.append_assoc]
        refine List.Perm.append_left pending ?_
        refine ((perm_eraseIdx running i file hfile).append_right proc.invoked).trans ?_
        rw [List.cons_append, ← List.append_assoc]
        exact (List.perm_append_singleton _ _).symm
      rcases o3 with ⟨a1, a2, a3, a4⟩ | ⟨err, a1, a2, a3, a4⟩
      · -- no call of `check`
        simp only [a3, Option.isSome_none, Bool.false_eq_true, if_false,
          Option.some.injEq] at hs
        subst hs
        constructor
        all_goals try dsimp only
        · exact h1
        · exact h2
        · omega
        · intro _; omega
        · intro _; omega
        · exact h6
        · intro hp; exact absurd hp hfin
        · intro hp; rw [o1]; exact h8 hp
        · intro hl hp; rw [o1]; exact h9 hl hp
        · exact Or.inl a3
        · intro hst; rw [a1]; exact h11 hst
        · exact h12
        · intro hst; rw [a4, o2, h13 hst]
        · rw [o2]; exact hperm
      · rcases Bool.eq_false_or_eq_true f.strictMode with hst | hst
        · -- strict mode: the goroutine stands at `os.Exit(1)`
          have a3' : (downloadFile w f.strictMode file f.outDir proc).exit = some 1 := by
            rw [a3, hst]; rfl
          simp only [a3', Option.isSome_some, if_true, Option.some.injEq] at hs
          subst hs
          constructor
          all_goals try dsimp only
          · exact h1
          · exact h2
          · rw [List.length_append, List.length_singleton]; omega
          · intro _; rw [List.length_append, List.length_singleton]; omega
          · intro _; rw [List.length_append, List.length_singleton]; omega
          · exact h6
          · intro hp; exact absurd hp hfin
          · intro hp; rw [o1]; exact h8 hp
          · intro hl hp; rw [o1]; exact h9 hl hp
          · exact Or.inl rfl
          · intro hs'; rw [a1, List.map_append, h11 hs']; rfl
          · intro h; rw [hst] at h; cases h
          · intro h; rw [hst] at h; cases h
          · rw [o2]; exact hperm
        · -- lenient mode: the call returns
          have a3' : (downloadFile w f.strictMode file f.outDir proc).exit = none := by
            rw [a3, hst]; rfl
          simp only [a3', Option.isSome_none, Bool.false_eq_true, if_false,
            Option.some.injEq] at hs
          subst hs
          constructor
          all_goals try dsimp only
          · exact h1
          · exact h2
          · omega
          · intro _; omega
          · intro _; omega
          · exact h6
          · intro hp; exact absurd hp hfin
          · intro hp; rw [o1]; exact h8 hp
          · intro hl hp; rw [o1]; exact h9 hl hp
          · exact Or.inl a3'
          · intro h; rw [hst] at h; cases h
          · exact h12
          · intro _; rw [a4, o2, h13 hst]; simp [hst]
          · rw [o2]; exact hperm

theorem inv_step (f : Flags) (l0 : List String) (c0 : Nat) (a : Action) (s s' : State)
    (h : Inv f l0 c0 s) (hs : step f a s = some s') : Inv f l0 c0 s' := by
  cases a with
  | main => exact inv_main f l0 c0 s s' h hs
  | handoff => exact inv_handoff f l0 c0 s s' h hs
  | download i w => exact inv_download f l0 c0 s s' i w h hs
  | osExit j => exact inv_osExit f l0 c0 s s' j h hs
  | receive => exact inv_receive f l0 c0 s s' h hs
  | done => exact inv_done f l0 c0 s s' h hs

theorem inv_exec (f : Flags) (l0 : List String) (c0 : Nat) (as : List Action) :
    ∀ s s' : State, Inv f l0 c0 s → exec f as s = some s' → Inv f l0 c0 s' := by
  induction as with
  | nil =>
    intro s s' h hs
    simp only [exec, Option.some.injEq] at hs
    exact hs ▸ h
  | cons a as ih =>
    intro s s' h hs
    simp only [exec] at hs
    cases hstep : step f a s with
    | none => simp [hstep] at hs
    | some t =>
      rw [hstep] at hs
      exact ih t s' (inv_step f l0 c0 a s t h hstep) hs

theorem inv_reachable (f : Flags) (fs : FS) (s : State) (h : Reachable f fs s) :
    Inv f (start f fs).pending (start f fs).cap s := by
  obtain ⟨as, has⟩ := h
  exact inv_exec f _ _ as _ s (inv_start f fs) has

theorem exec_append (f : Flags) (as bs : List Action) (s : State) :
    exec f (as ++ bs) s = (exec f as s).bind (exec f bs) := by
  induction as generalizing s with
  | nil => rfl
  | cons a as ih =>
    simp only [List.cons_append, exec]
    cases step f a s with
    | none => rfl
    | some t => exact ih t

theorem reachable_step (f : Flags) (fs : FS) (a : Action) (s s' : State)
    (h : Reachable f fs s) (hs : step f a s = some s') : Reachable f fs s' := by
  obtain ⟨as, has⟩ := h
  refine ⟨as ++ [a], ?_⟩
  rw [exec_append, has]
  simp [exec, hs]

/-- A step uses up fuel: a run has at most as many steps as the fuel of the
state it starts in. -/
theorem step_fuel (f : Flags) (a : Action) (s s' : State) (hs : step f a s = some s') :
    s'.fuel < s.fuel := by
  obtain ⟨cap, pc, pending, queue, wg, running, recvN, doneN, proc, exiting, exitedBy⟩ := s
  simp only [step] at hs
  split at hs
  · cases hs
  · rename_i hx
    have hx' : proc.exit = none := by simpa using hx
    cases a with
    | main =>
      cases pc <;> dsimp only at hs
      · split at hs
        · cases hs; simp [State.fuel, hx']
        · cases hs
      · cases hs; simp [State.fuel, hx']
      · split at hs
        · cases hs
        · cases hs
          rename_i file rest
          cases rest <;> simp [State.fuel, hx', loopPc] <;> omega
      · split at hs
        · cases hs; simp [State.fuel, hx']
        · cases hs
      · cases hs; simp [State.fuel, hx']
      · cases hs; simp [State.fuel, hx']
    | handoff =>
      dsimp only at hs
      split at hs
      · rename_i hc
        obtain ⟨hc1, hc2, hc3⟩ := hc
        cases hs
        subst hc1
        simp [State.fuel, hx']
        omega
      · cases hs
    | download i w =>
      dsimp only at hs
      split at hs
      · cases hs
      · rename_i file hfile
        have hlen := length_eraseIdx_add_one running i file hfile
        split at hs
        · cases hs
          simp only [State.fuel, Option.isSome_none, Bool.false_eq_true, if_false, hx']
          omega
        · rename_i hex
          have hex' : (downloadFile w f.strictMode file f.outDir proc).exit = none := by
            simpa using hex
          cases hs
          simp only [State.fuel, Option.isSome_none, Bool.false_eq_true, if_false, hx', hex']
          omega
    | osExit j =>
      dsimp only at hs
      split at hs
      · cases hs
      · cases hs
        simp only [State.fuel, Option.isSome_none, Option.isSome_some, Bool.false_eq_true,
          if_false, if_true, hx']
        omega
    | receive =>
      dsimp only at hs
      split at hs
      · rename_i hc
        obtain ⟨hc1, hc2⟩ := hc
        cases hs
        simp only [State.fuel, hx']
        omega
      · cases hs
    | done =>
      dsimp only at hs
      split at hs
      · rename_i hc
        cases hs
        by_cases hw : wg - 1 < 0
        · simp only [State.fuel, hx', hw, if_true, Option.isSome_some, Option.isSome_none]
          simp
          omega
        · simp only [State.fuel, hx', hw, if_false, Option.isSome_none]
          simp
          omega
      · cases hs

theorem downloadFile_fetch (w : World) (strictMode : Bool) (file path : String) (p : Proc)
    (hp : p.exit = none) :
    (w.fetchOk file path = true →
      (downloadFile w strictMode file path p).checks = p.checks ∧
      (downloadFile w strictMode file path p).stderr = p.stderr ∧
      (downloadFile w strictMode file path p).exit = none) ∧
    (w.fetchOk file path = false →
      ∃ err, (downloadFile w strictMode file path p).checks = p.checks ++ [(file, err)] ∧
      (downloadFile w strictMode file path p).stderr = p.stderr ++ [errLine file err] ∧
      (downloadFile w strictMode file path p).exit = if strictMode then some 1 else none) := by
  unfold downloadFile World.fetchOk
  rcases w.mkdirAll path with _ | err <;> dsimp only
  · rcases w.get file with err | resp <;> dsimp only
    · simp [hp]
    · unfold downloadBody
      rcases mimeLookup resp.contentType with _ | kind <;> dsimp only
      · simp [hp]
      · rw [not_hasSuffix_ite]
        generalize (if strings.HasSuffix (filepath.Base file) kind then filepath.Base file
          else filepath.Base file ++ "." ++ kind) = name
        rcases w.create path name with _ | err <;> dsimp only
        · rcases w.copy file with _ | ⟨n, err⟩ <;> simp [hp]
        · simp [hp]
  · simp [hp]

theorem start_active (f : Flags) (fs : FS) (hh : f.helpFlag = false) (hv : f.Valid)
    (ht : 0 ≤ f.thread) :
    start f fs = { cap := f.thread.toNat, pc := .send, pending := strings.Split f.input ',',
                   queue := 0, wg := 0, running := [], recvN := 0, doneN := 0,
                   proc := Proc.start fs, exiting := [], exitedBy := none } := by
  have h1 : strings.Split f.input ',' ≠ [] := split_ne_nil _ _
  have h2 : ¬ f.thread < 0 := by omega
  have h3 : loopPc (strings.Split f.input ',') = .send := by
    cases hl : strings.Split f.input ',' with
    | nil => exact absurd hl h1
    | cons x xs => rfl
  unfold start
  simp [hh, hv.1, hv.2, h1, h2, h3]

theorem start_cap (f : Flags) (fs : FS) :
    (start f fs).cap = 0 ∨ ((start f fs).cap : Int) = f.thread := by
  unfold start
  split
  · exact Or.inl rfl
  · split
    · exact Or.inl rfl
    · dsimp only
      split
      · exact Or.inl rfl
      · split
        · exact Or.inl rfl
        · rename_i ht
          right
          dsimp only
          omega

/-- While the process is alive and the channel has room for a token, some
action can run. -/
theorem progress (f : Flags) (l0 : List String) (c0 : Nat) (s : State) (h : Inv f l0 c0 s)
    (hc : 1 ≤ s.cap) (hx : s.proc.exit = none) : ∃ a s', step f a s = some s' := by
  obtain ⟨cap, pc, pending, queue, wg, running, recvN, doneN, proc, exiting, exitedBy⟩ := s
  have hq := h.alive_queue hx
  have hw := h.alive_wg hx
  have hp := h.pend
  dsimp only at hq hw hp hc hx
  by_cases hex : exiting = []
  swap
  · obtain ⟨x, xs, hx'⟩ := List.exists_cons_of_ne_nil hex
    exact ⟨.osExit 0, _, by simp [step, hx, hx']; rfl⟩
  have hrun : ∀ x xs, running = x :: xs → ∃ a s', step f a
      { cap := cap, pc := pc, pending := pending, queue := queue, wg := wg, running := running,
        recvN := recvN, doneN := doneN, proc := proc, exiting := exiting,
        exitedBy := exitedBy } = some s' := by
    intro x xs hr
    refine ⟨.download 0 World.down, ?_⟩
    simp only [step, hx, hr, Option.isSome_none, Bool.false_eq_true, if_false,
      List.getElem?_cons_zero]
    split <;> exact ⟨_, rfl⟩
  have hrecv : 0 < recvN → 0 < queue → ∃ a s', step f a
      { cap := cap, pc := pc, pending := pending, queue := queue, wg := wg, running := running,
        recvN := recvN, doneN := doneN, proc := proc, exiting := exiting,
        exitedBy := exitedBy } = some s' := by
    intro h1 h2
    exact ⟨.receive, _, by simp [step, hx, h1, h2]; rfl⟩
  have hdone : 0 < doneN → ∃ a s', step f a
      { cap := cap, pc := pc, pending := pending, queue := queue, wg := wg, running := running,
        recvN := recvN, doneN := doneN, proc := proc, exiting := exiting,
        exitedBy := exitedBy } = some s' := by
    intro h1
    exact ⟨.done, _, by simp [step, hx, h1]; rfl⟩
  have hlen : running = [] → running.length = 0 := fun h => by rw [h]; rfl
  have hlen' : exiting.length = 0 := by rw [hex]; rfl
  cases pc
  · by_cases hlt : queue < cap
    · exact ⟨.main, _, by simp [step, hx, hlt]; rfl⟩
    · by_cases hr : running = []
      · have := hlen hr
        simp only [Pc.hold] at hq
        exact hrecv (by omega) (by omega)
      · obtain ⟨x, xs, hr'⟩ := List.exists_cons_of_ne_nil hr
        exact hrun x xs hr'
  · exact ⟨.main, _, by simp [step, hx]; rfl⟩
  · cases hpd : pending with
    | nil => simp [hpd] at hp
    | cons x xs => exact ⟨.main, _, by simp [step, hx]; rfl⟩
  · by_cases hz : wg = 0
    · exact ⟨.main, _, by simp [step, hx, hz]; rfl⟩
    · by_cases hr : running = []
      · have := hlen hr
        simp only [Pc.hold, Pc.added] at hq hw
        by_cases hrn : 0 < recvN
        · exact hrecv hrn (by omega)
        · exact hdone (by omega)
      · obtain ⟨x, xs, hr'⟩ := List.exists_cons_of_ne_nil hr
        exact hrun x xs hr'
  · exact ⟨.main, _, by simp [step, hx]; rfl⟩
  · exact ⟨.main, _, by simp [step, hx]; rfl⟩

theorem step_of_exited (f : Flags) (a : Action) (s : State) (n : Nat)
    (h : s.proc.exit = some n) : step f a s = none := by
  simp [step, h]

theorem start_stuck_of_zero (f : Flags) (fs : FS) (ht : f.thread = 0) (hh : f.helpFlag = false)
    (hv : f.Valid) (a : Action) : step f a (start f fs) = none := by
  rw [start_active f fs hh hv (by omega), ht]
  cases a <;> simp [step, Proc.start]

theorem reachable_of_zero (f : Flags) (fs : FS) (ht : f.thread = 0) (hh : f.helpFlag = false)
    (hv : f.Valid) (s : State) (hr : Reachable f fs s) : s = start f fs := by
  obtain ⟨as, has⟩ := hr
  cases as with
  | nil =>
    simp only [exec, Option.some.injEq] at has
    exact has.symm
  | cons a as =>
    simp only [exec, start_stuck_of_zero f fs ht hh hv a, Option.bind] at has
    cases has

/-! ## The claims about `main` -/

/-- C1: in every state the program can reach, whatever the list of URLs, when
`thread` is at least 1, the number of fetch tasks launched and not yet
finished lies between 0 and `thread`; it is at most the number of tokens in
`queue`, which is at most `thread`. -/
theorem inFlight_bounded (f : Flags) (fs : FS) (ht : 1 ≤ f.thread) (s : State)
    (hr : Reachable f fs s) :
    0 ≤ s.inFlight ∧ (s.inFlight : Int) ≤ f.thread ∧
    s.inFlight ≤ s.queue ∧ (s.queue : Int) ≤ f.thread := by
  have inv := inv_reachable f fs s hr
  have h1 := inv.flight_le
  have h2 := inv.queue_le
  have h3 := inv.cap_eq
  have hin : s.inFlight = s.running.length + s.recvN + s.exiting.length := rfl
  refine ⟨Nat.zero_le _, ?_, by omega, ?_⟩
  · rcases start_cap f fs with h | h <;> omega
  · rcases start_cap f fs with h | h <;> omega

/-- C1 at a sample state: three files with `-t 2`, after two rounds of the
loop two tasks are in flight. -/
theorem inFlight_bounded_witness :
    stateTwo.inFlight = 2 ∧ (stateTwo.inFlight : Int) ≤ flagsTwo.thread :=
  ⟨rfl, (inFlight_bounded flagsTwo fs0 (by decide) stateTwo
    ⟨[.main, .main, .main, .main, .main, .main], rfl⟩).2.1⟩

/-- C2, for `thread` at least 1: in lenient mode, on an input that passes the
validation, `downloadFile` is called exactly once for each element of
`strings.Split(input, ",")`.  At every moment the elements still pending, the
goroutines not yet run and the calls made are together a rearrangement of the
list, and every call made has returned; a run cannot go on for ever, and when
no step is left the calls made are a rearrangement of the whole list.  Each
call has one outcome: every stage succeeds and `check` is not called, or a
stage fails and `check` is called once, printing one line. -/
theorem lenient_each_url_once (f : Flags) (fs : FS) (hl : f.strictMode = false)
    (hh : f.helpFlag = false) (hv : f.Valid) (ht : 1 ≤ f.thread) :
    (∀ s, Reachable f fs s →
      (strings.Split f.input ',').Perm (s.pending ++ s.running ++ s.proc.invoked) ∧
      s.proc.returned = s.proc.invoked) ∧
    (∀ s a s', Reachable f fs s → step f a s = some s' → s'.fuel < s.fuel) ∧
    (∀ s, Reachable f fs s → (∀ a, step f a s = none) →
      s.proc.invoked.Perm (strings.Split f.input ',') ∧
      s.proc.returned.Perm (strings.Split f.input ',')) ∧
    (∀ (w : World) (file : String) (p : Proc), p.exit = none →
      (downloadFile w f.strictMode file f.outDir p).exit = none ∧
      (downloadFile w f.strictMode file f.outDir p).invoked = p.invoked ++ [file] ∧
      (downloadFile w f.strictMode file f.outDir p).returned = p.returned ++ [file] ∧
      ((w.fetchOk file f.outDir = true ∧
        (downloadFile w f.strictMode file f.outDir p).checks = p.checks ∧
        (downloadFile w f.strictMode file f.outDir p).stderr = p.stderr) ∨
       (w.fetchOk file f.outDir = false ∧ ∃ err,
        (downloadFile w f.strictMode file f.outDir p).checks = p.checks ++ [(file, err)] ∧
        (downloadFile w f.strictMode file f.outDir p).stderr
          = p.stderr ++ [errLine file err]))) := by
  have hst := start_active f fs hh hv (by omega)
  have hpend : (start f fs).pending = strings.Split f.input ',' := by rw [hst]
  have hcap : (start f fs).cap = f.thread.toNat := by rw [hst]
  refine ⟨?_, ?_, ?_, ?_⟩
  · intro s hr
    have inv := inv_reachable f fs s hr
    exact ⟨hpend ▸ inv.perm, inv.lenient_ret hl⟩
  · intro s a s' _ hs
    exact step_fuel f a s s' hs
  · intro s hr hterm
    have inv := inv_reachable f fs s hr
    have hx : s.proc.exit = some 0 ∧ s.pc = .ret := by
      rcases inv.exits with h | h | ⟨_, h, _⟩ | ⟨_, h, _⟩
      · obtain ⟨a, s', hs⟩ := progress f _ _ s inv (by rw [inv.cap_eq, hcap]; omega) h
        rw [hterm a] at hs
        cases hs
      · exact h
      · rw [hl] at h; cases h
      · omega
    have hfin := inv.fin (Or.inr hx.2)
    have hp : s.pending = [] := by
      by_contra hne
      rcases inv.pend.1 hne with h | h | h <;> rw [hx.2] at h <;> cases h
    have hperm := inv.perm
    rw [hpend, hp, hfin.1] at hperm
    simp only [List.append_nil, List.nil_append] at hperm
    exact ⟨hperm.symm, (inv.lenient_ret hl) ▸ hperm.symm⟩
  · intro w file p hp
    obtain ⟨_, o2, o3⟩ := downloadFile_outcome w f.strictMode file f.outDir p hp
    obtain ⟨g1, g2⟩ := downloadFile_fetch w f.strictMode file f.outDir p hp
    have hex : (downloadFile w f.strictMode file f.outDir p).exit = none := by
      rcases o3 with ⟨_, _, a3, _⟩ | ⟨_, _, _, a3, _⟩
      · exact a3
      · rw [a3, hl]; rfl
    have hret : (downloadFile w f.strictMode file f.outDir p).returned = p.returned ++ [file] := by
      rcases o3 with ⟨_, _, _, a4⟩ | ⟨_, _, _, _, a4⟩
      · exact a4
      · rw [a4, hl]; rfl
    refine ⟨hex, o2, hret, ?_⟩
    cases hok : w.fetchOk file f.outDir
    · obtain ⟨err, e1, e2, _⟩ := g2 hok
      exact Or.inr ⟨rfl, err, e1, e2⟩
    · obtain ⟨e1, e2, _⟩ := g1 hok
      exact Or.inl ⟨rfl, e1, e2⟩

/-- C2 at a sample run: one file with `-t 1` whose request fails; at the end
the one URL has been fetched once. -/
theorem lenient_each_url_once_witness :
    stateOne.proc.invoked.Perm (strings.Split flagsOne.input ',') ∧
    stateOne.proc.invoked = ["a.png"] :=
  ⟨((lenient_each_url_once flagsOne fs0 rfl rfl (by decide) (by decide)).2.2.1 stateOne
      ⟨[.main, .main, .main, .download 0 World.down, .receive, .done, .main, .main, .main], rfl⟩
      (fun a => step_of_exited flagsOne a stateOne 0 rfl)).1, rfl⟩

/-- C2 as stated fails for `-t 0`: with the input `a.png,b.png`, which passes
the validation, no step can be taken from the first state, and in it
`downloadFile` has been called for no element of the list. -/
theorem lenient_zero_thread_no_call :
    flagsZero.Valid ∧ strings.Split flagsZero.input ',' = ["a.png", "b.png"] ∧
    (∀ a, step flagsZero a (start flagsZero fs0) = none) ∧
    (start flagsZero fs0).proc.invoked = [] ∧
    ¬ (∀ s, Reachable flagsZero fs0 s → (∀ a, step flagsZero a s = none) →
        s.proc.invoked.Perm (strings.Split flagsZero.input ',')) := by
  have hv : flagsZero.Valid := by decide
  have hstuck := start_stuck_of_zero flagsZero fs0 rfl rfl hv
  refine ⟨hv, by decide, hstuck, rfl, ?_⟩
  intro h
  have := (h (start flagsZero fs0) ⟨[], rfl⟩ hstuck).length_eq
  revert this
  decide

/-- C3, as the code has it: in strict mode a fetch in which a stage fails (the
directory, the request, the content type, the creation of the file or the
copy) calls `check`, which prints its line and then runs `os.Exit(1)`.  From
the first call of `check` on, the goroutines that have called `check` stand at
`os.Exit(1)`, in the order of their calls (other fetches may fail and print
their lines in the meantime); the process is alive or has ended with status 1;
`main` has not got past `wg.Wait()` and `download success!` has not been
printed; the `os.Exit(1)` of the first call can run and ends the process with
status 1; a run cannot go on for ever, and when no step is left the exit
status is 1. -/
theorem strict_failure_exits_one (f : Flags) (fs : FS) (hst : f.strictMode = true) :
    (∀ (file err : String) (p : Proc), (check f.strictMode file err p).exit = some 1) ∧
    (∀ (w : World) (file : String) (p : Proc), p.exit = none →
      w.fetchOk file f.outDir = false →
      (downloadFile w f.strictMode file f.outDir p).exit = some 1 ∧
      ∃ err, (downloadFile w f.strictMode file f.outDir p).checks = p.checks ++ [(file, err)]) ∧
    (∀ s, Reachable f fs s → s.proc.checks ≠ [] →
      (s.proc.exit = none ∨ s.proc.exit = some 1) ∧
      s.exiting = s.proc.checks.map Prod.fst ∧
      s.pc ≠ .print ∧ s.pc ≠ .ret ∧
      "download success!\n" ∉ s.proc.stdout) ∧
    (∀ s, Reachable f fs s → s.proc.checks ≠ [] → s.proc.exit = none →
      ∃ file err s', s.proc.checks.head? = some (file, err) ∧
        step f (.osExit 0) s = some s' ∧ s'.proc.exit = some 1 ∧ s'.exitedBy = some file ∧
        s'.proc.stdout = s.proc.stdout) ∧
    (∀ s a s', Reachable f fs s → step f a s = some s' → s'.fuel < s.fuel) ∧
    (∀ s, Reachable f fs s → s.proc.checks ≠ [] → (∀ a, step f a s = none) →
      s.proc.exit = some 1) ∧
    (∀ s, Reachable f fs s → s.proc.exit = some 1 →
      s.proc.checks ≠ [] ∧ "download success!\n" ∉ s.proc.stdout) := by
  have hC : ∀ s, Reachable f fs s → s.proc.checks ≠ [] →
      (s.proc.exit = none ∨ s.proc.exit = some 1) ∧
      s.exiting = s.proc.checks.map Prod.fst ∧
      s.pc ≠ .print ∧ s.pc ≠ .ret ∧
      "download success!\n" ∉ s.proc.stdout := by
    intro s hr hc
    have inv := inv_reachable f fs s hr
    have hex : s.exiting = s.proc.checks.map Prod.fst := (inv.strict_exiting hst).symm
    have hne : s.exiting ≠ [] := by
      rw [hex]
      intro h
      exact hc (List.map_eq_nil_iff.1 h)
    have hpr : s.pc ≠ .print := fun h => hne (inv.fin (Or.inl h)).2.2.2
    have hrt : s.pc ≠ .ret := fun h => hne (inv.fin (Or.inr h)).2.2.2
    refine ⟨?_, hex, hpr, hrt, by rw [inv.quiet hrt]; simp⟩
    rcases inv.exits with h | ⟨_, h⟩ | ⟨h, _⟩ | ⟨_, _, h⟩
    · exact Or.inl h
    · exact absurd h hrt
    · exact Or.inr h
    · exact absurd h hc
  have hD : ∀ s, Reachable f fs s → s.proc.checks ≠ [] → s.proc.exit = none →
      ∃ file err s', s.proc.checks.head? = some (file, err) ∧
        step f (.osExit 0) s = some s' ∧ s'.proc.exit = some 1 ∧ s'.exitedBy = some file ∧
        s'.proc.stdout = s.proc.stdout := by
    intro s hr hc hx
    obtain ⟨_, hex, _⟩ := hC s hr hc
    obtain ⟨⟨file, err⟩, rest, hck⟩ := List.exists_cons_of_ne_nil hc
    have h0 : s.exiting[0]? = some file := by rw [hex, hck]; simp
    have hstep : step f (.osExit 0) s
        = some { s with proc := { s.proc with exit := some 1 }, exitedBy := some file } := by
      simp [step, hx, h0]
    exact ⟨file, err, _, by rw [hck]; rfl, hstep, rfl, rfl, rfl⟩
  refine ⟨?_, ?_, hC, hD, fun s a s' _ hs => step_fuel f a s s' hs, ?_, ?_⟩
  · intro file err p
    simp [hst]
  · intro w file p hp hfail
    obtain ⟨err, e1, _, e3⟩ := (downloadFile_fetch w f.strictMode file f.outDir p hp).2 hfail
    exact ⟨by rw [e3, hst]; rfl, err, e1⟩
  · intro s hr hc hterm
    rcases (hC s hr hc).1 with h | h
    · obtain ⟨_, _, s', _, hs, _⟩ := hD s hr hc h
      rw [hterm (.osExit 0)] at hs
      cases hs
    · exact h
  · intro s hr hx
    have inv := inv_reachable f fs s hr
    have hc : s.proc.checks ≠ [] := by
      rcases inv.exits with h | ⟨h, _⟩ | ⟨_, _, h⟩ | ⟨h, _⟩
      · rw [h] at hx; cases hx
      · rw [h] at hx; cases hx
      · intro hnil
        have := inv.strict_exiting hst
        rw [hnil] at this
        exact h this.symm
      · rw [h] at hx; cases hx
    exact ⟨hc, (hC s hr hc).2.2.2.2⟩

/-- C3 at a sample run: two files with `-t 2` in strict mode; both requests
fail before any `os.Exit(1)` runs.  The process can only end with status 1,
nothing is on standard output, and the `os.Exit(1)` of the first call, the one
for `a.png`, can run. -/
theorem strict_failure_exits_one_witness :
    ((stateStrictBoth.proc.exit = none ∨ stateStrictBoth.proc.exit = some 1) ∧
      stateStrictBoth.exiting = stateStrictBoth.proc.checks.map Prod.fst ∧
      stateStrictBoth.pc ≠ .print ∧ stateStrictBoth.pc ≠ .ret ∧
      "download success!\n" ∉ stateStrictBoth.proc.stdout) ∧
    (stateStrictEnd.proc.checks ≠ [] ∧ "download success!\n" ∉ stateStrictEnd.proc.stdout) :=
  ⟨(strict_failure_exits_one flagsStrict fs0 rfl).2.2.1 stateStrictBoth
      ⟨[.main, .main, .main, .main, .main, .main, .download 0 World.down,
        .download 0 World.down], rfl⟩ (by decide),
   (strict_failure_exits_one flagsStrict fs0 rfl).2.2.2.2.2.2 stateStrictEnd
      ⟨[.main, .main, .main, .main, .main, .main, .download 0 World.down,
        .download 0 World.down, .osExit 1], rfl⟩ rfl⟩

/-- C3 as stated fails: with `-s -t 2 -i a.png,b.png` and both requests
refused, the first call of `check` (for `a.png`) does not end the process.  The
goroutine of `b.png` calls `check` too, so that two lines are printed while the
process is alive, and the process is then ended by the `os.Exit(1)` of the
second call. -/
theorem strict_second_check_before_exit :
    Reachable flagsStrict fs0 stateStrictBoth ∧
    stateStrictBoth.proc.exit = none ∧
    stateStrictBoth.proc.checks
      = [("a.png", "connection refused"), ("b.png", "connection refused")] ∧
    stateStrictBoth.proc.stderr
      = ["a.png download err, reason: connection refused\n",
         "b.png download err, reason: connection refused\n"] ∧
    step flagsStrict (.osExit 1) stateStrictBoth = some stateStrictEnd ∧
    stateStrictEnd.proc.exit = some 1 ∧ stateStrictEnd.exitedBy = some "b.png" ∧
    ¬ (∀ s, Reachable flagsStrict fs0 s → s.proc.checks ≠ [] →
        s.proc.exit = some 1 ∧ s.proc.checks.length = 1) := by
  have hr : Reachable flagsStrict fs0 stateStrictBoth :=
    ⟨[.main, .main, .main, .main, .main, .main, .download 0 World.down,
      .download 0 World.down], rfl⟩
  refine ⟨hr, rfl, rfl, rfl, rfl, rfl, rfl, ?_⟩
  intro h
  have := (h stateStrictBoth hr (by decide)).1
  revert this
  decide

/-- C4, for `thread` at least 1: in lenient mode, on an input that passes the
validation, whatever the fetches do, a run cannot go on for ever, is never
stuck before the process has ended, and ends with status 0 and
`download success!` printed once.  The line is printed only when every task
has finished, and by then `downloadFile` has returned for every URL of the
list; a fetch that fails leaves the process alive. -/
theorem lenient_run_ends_in_success (f : Flags) (fs : FS) (hl : f.strictMode = false)
    (hh : f.helpFlag = false) (hv : f.Valid) (ht : 1 ≤ f.thread) :
    (∀ s a s', Reachable f fs s → step f a s = some s' → s'.fuel < s.fuel) ∧
    (∀ s, Reachable f fs s → s.proc.exit = none → ∃ a s', step f a s = some s') ∧
    (∀ s, Reachable f fs s → (∀ a, step f a s = none) →
      s.proc.exit = some 0 ∧ s.proc.stdout = ["download success!\n"]) ∧
    (∀ s, Reachable f fs s → s.proc.exit = none ∨ s.proc.exit = some 0) ∧
    (∀ s, Reachable f fs s → s.proc.stdout = [] ∨
      (s.proc.stdout = ["download success!\n"] ∧ s.pending = [] ∧ s.running = [] ∧
        s.recvN = 0 ∧ s.doneN = 0 ∧ s.proc.returned.Perm (strings.Split f.input ','))) ∧
    (∀ s i file w, Reachable f fs s → s.proc.exit = none → s.running[i]? = some file →
      ∃ s', step f (.download i w) s = some s' ∧ s'.proc.exit = none ∧
        s'.proc.returned = s.proc.returned ++ [file]) := by
  have hst := start_active f fs hh hv (by omega)
  have hpend : (start f fs).pending = strings.Split f.input ',' := by rw [hst]
  have hcap : (start f fs).cap = f.thread.toNat := by rw [hst]
  have hne : (start f fs).pending ≠ [] := by rw [hpend]; exact split_ne_nil _ _
  have hprog : ∀ s, Reachable f fs s → s.proc.exit = none → ∃ a s', step f a s = some s' := by
    intro s hr hx
    have inv := inv_reachable f fs s hr
    exact progress f _ _ s inv (by rw [inv.cap_eq, hcap]; omega) hx
  have hexit : ∀ s, Reachable f fs s →
      s.proc.exit = none ∨ (s.proc.exit = some 0 ∧ s.pc = .ret) := by
    intro s hr
    rcases (inv_reachable f fs s hr).exits with h | h | ⟨_, h, _⟩ | ⟨_, h, _⟩
    · exact Or.inl h
    · exact Or.inr h
    · rw [hl] at h; cases h
    · omega
  refine ⟨fun s a s' _ hs => step_fuel f a s s' hs, hprog, ?_, ?_, ?_, ?_⟩
  · intro s hr hterm
    rcases hexit s hr with h | h
    · obtain ⟨a, s', hs⟩ := hprog s hr h
      rw [hterm a] at hs
      cases hs
    · exact ⟨h.1, (inv_reachable f fs s hr).said hne h.2⟩
  · intro s hr
    rcases hexit s hr with h | h
    · exact Or.inl h
    · exact Or.inr h.1
  · intro s hr
    have inv := inv_reachable f fs s hr
    by_cases hpc : s.pc = .ret
    · right
      have hfin := inv.fin (Or.inr hpc)
      have hp : s.pending = [] := by
        by_contra hne'
        rcases inv.pend.1 hne' with h | h | h <;> rw [hpc] at h <;> cases h
      have hperm := inv.perm
      rw [hpend, hp, hfin.1] at hperm
      simp only [List.append_nil, List.nil_append] at hperm
      exact ⟨inv.said hne hpc, hp, hfin.1, hfin.2.1, hfin.2.2.1,
        (inv.lenient_ret hl) ▸ hperm.symm⟩
    · exact Or.inl (inv.quiet hpc)
  · intro s i file w _ hx hfile
    obtain ⟨_, _, o3⟩ := downloadFile_outcome w f.strictMode file f.outDir s.proc hx
    have a3 : (downloadFile w f.strictMode file f.outDir s.proc).exit = none := by
      rcases o3 with ⟨_, _, a3, _⟩ | ⟨_, _, _, a3, _⟩
      · exact a3
      · rw [a3, hl]; rfl
    have a4 : (downloadFile w f.strictMode file f.outDir s.proc).returned
        = s.proc.returned ++ [file] := by
      rcases o3 with ⟨_, _, _, a4⟩ | ⟨_, _, _, _, a4⟩
      · exact a4
      · rw [a4, hl]; rfl
    exact ⟨_, by simp [step, hx, hfile, a3]; rfl, a3, a4⟩

/-- C4 at a sample run: one file with `-t 1` whose request fails; the run
ends with status 0 and the line `download success!`. -/
theorem lenient_run_ends_in_success_witness :
    stateOne.proc.checks.length = 1 ∧ stateOne.proc.exit = some 0 ∧
    stateOne.proc.stdout = ["download success!\n"] :=
  ⟨rfl, (lenient_run_ends_in_success flagsOne fs0 rfl rfl (by decide) (by decide)).2.2.1 stateOne
    ⟨[.main, .main, .main, .download 0 World.down, .receive, .done, .main, .main, .main], rfl⟩
    (fun a => step_of_exited flagsOne a stateOne 0 rfl)⟩

/-- C4 as stated fails for `-t 0`: with the input `a.png`, which passes the
validation, no step can be taken from the first state (a deadlock, which the Go
run time reports as a fatal error); the process has not ended with status 0
and has printed nothing. -/
theorem lenient_zero_thread_never_ends :
    flagsZeroOne.Valid ∧
    (∀ a, step flagsZeroOne a (start flagsZeroOne fs0) = none) ∧
    (start flagsZeroOne fs0).proc.exit = none ∧
    (start flagsZeroOne fs0).proc.stdout = [] ∧
    ¬ (∀ s, Reachable flagsZeroOne fs0 s → (∀ a, step flagsZeroOne a s = none) →
        s.proc.exit = some 0 ∧ s.proc.stdout = ["download success!\n"]) := by
  have hv : flagsZeroOne.Valid := by decide
  have hstuck := start_stuck_of_zero flagsZeroOne fs0 rfl rfl hv
  refine ⟨hv, hstuck, rfl, rfl, ?_⟩
  intro h
  have := (h (start flagsZeroOne fs0) ⟨[], rfl⟩ hstuck).1
  revert this
  decide

/-- C9: with `-t 0` and an input that passes the validation, the program is
stuck from the start: the only state it can be in is the first one, where the
dispatcher stands at its first send on the channel of capacity zero, and no
step can be taken from it; no task has been launched, `downloadFile` has not
been called, nothing has been printed and `main` has not returned. -/
theorem zero_thread_deadlock (f : Flags) (fs : FS) (ht : f.thread = 0)
    (hh : f.helpFlag = false) (hv : f.Valid) (s : State) (hr : Reachable f fs s) :
    s = start f fs ∧ (∀ a, step f a s = none) ∧
    s.pc = .send ∧ s.pending = strings.Split f.input ',' ∧ s.cap = 0 ∧ s.queue = 0 ∧
    s.inFlight = 0 ∧ s.doneN = 0 ∧ s.proc.invoked = [] ∧ s.proc.stdout = [] ∧
    s.proc.exit = none := by
  have hs := reachable_of_zero f fs ht hh hv s hr
  have hst := start_active f fs hh hv (by omega)
  subst hs
  refine ⟨rfl, start_stuck_of_zero f fs ht hh hv, ?_⟩
  rw [hst, ht]
  exact ⟨rfl, rfl, rfl, rfl, rfl, rfl, rfl, rfl, rfl⟩

/-- C9 at a sample input: two files with `-t 0`. -/
theorem zero_thread_deadlock_witness :
    (∀ a, step flagsZero a (start flagsZero fs0) = none) ∧
    (start flagsZero fs0).proc.stdout = [] :=
  have h := zero_thread_deadlock flagsZero fs0 rfl rfl (by decide) (start flagsZero fs0)
    ⟨[], rfl⟩
  ⟨h.2.1, h.2.2.2.2.2.2.2.2.2.1⟩

end Bdfile
